import Mathlib

/-
  Verification development for the augmentation-playground service
  (src/app/main.py).  The service's glue logic is shallowly embedded:
  JSON payloads become the inductive type JVal, the relevant Python
  primitives (dict.get, truthiness, float()/int() coercion, iteration)
  become total Lean functions returning Except where Python raises,
  numpy arrays become (nested) lists over an extended-rational value
  type, and the HTTP handlers become functions from their inputs to
  Except of an error type.  The torchio library is an external
  collaborator and is represented by an arbitrary function argument.
-/

set_option maxRecDepth 100000

mutual
/-- A JSON value, as decoded by the web framework into Python objects:
null, booleans, numbers (modelled exactly as rationals), strings,
arrays (Python lists) and objects (Python dicts with string keys). -/
inductive JVal where
  | null : JVal
  | bool (b : Bool) : JVal
  | num (q : ℚ) : JVal
  | str (s : String) : JVal
  | arr (xs : JList) : JVal
  | obj (fields : JFields) : JVal
/-- A list of JSON values (spine made explicit so that decidable
equality can be derived). -/
inductive JList where
  | nil : JList
  | cons (v : JVal) (tl : JList) : JList
/-- The field list of a JSON object. -/
inductive JFields where
  | nil : JFields
  | cons (k : String) (v : JVal) (tl : JFields) : JFields
end

deriving instance DecidableEq for JVal, JList, JFields

deriving instance DecidableEq for Except

/-- The elements of a JSON array as an ordinary list. -/
def JList.toList : JList → List JVal
  | .nil => []
  | .cons v tl => v :: tl.toList

/-- Build the array spine from an ordinary list. -/
def JList.ofList : List JVal → JList
  | [] => .nil
  | v :: tl => .cons v (JList.ofList tl)

/-- The fields of a JSON object as an ordinary association list. -/
def JFields.toList : JFields → List (String × JVal)
  | .nil => []
  | .cons k v tl => (k, v) :: tl.toList

/-- Build the field spine from an ordinary association list. -/
def JFields.ofList : List (String × JVal) → JFields
  | [] => .nil
  | (k, v) :: tl => .cons k v (JFields.ofList tl)

/-- Array literal helper. -/
def JVal.arrOf (xs : List JVal) : JVal := .arr (JList.ofList xs)

/-- Object literal helper. -/
def JVal.objOf (fs : List (String × JVal)) : JVal := .obj (JFields.ofList fs)

/-- First-match lookup in an object's field list (Python dict lookup;
JSON decoding keeps one binding per key). -/
def jLookup (fields : List (String × JVal)) (k : String) : Option JVal :=
  (fields.find? (fun p => p.1 == k)).map (fun p => p.2)

/-- Python truthiness of a decoded JSON value: None, False, 0, empty
string, empty list and empty dict are falsy, everything else truthy. -/
def pyTruthy : JVal → Bool
  | .null => false
  | .bool b => b
  | .num q => q != 0
  | .str s => s != ""
  | .arr xs => !xs.toList.isEmpty
  | .obj fs => !fs.toList.isEmpty

/-- Whether the value is a Python dict (isinstance(payload, dict)). -/
def isDict : JVal → Bool
  | .obj _ => true
  | _ => false

/-- Whether a value may be used as a dict key: Python lists and dicts
are unhashable and raise TypeError when used as keys. -/
def hashableKey : JVal → Bool
  | .arr _ => false
  | .obj _ => false
  | _ => true

/-- The method call v.get(k, d) for a string key: returns the field of
the dict, or the default when absent; raises AttributeError when v is
not a dict.  Models expressions such as transforms_payload.get("order",
\x7b\x7d) in src/app/main.py. -/
def pyGetD (v : JVal) (k : String) (d : JVal) : Except String JVal :=
  match v with
  | .obj fs => .ok ((jLookup fs.toList k).getD d)
  | _ => .error "AttributeError: get"

/-- The method call v.get(key) where the key itself is an arbitrary
decoded value (the elements of the order lists).  Non-dict receivers
raise AttributeError; unhashable keys raise TypeError; keys of other
non-string types are simply absent (dict keys are strings), yielding
None. -/
def pyGetKey (v : JVal) (k : JVal) : Except String JVal :=
  match v with
  | .obj fs =>
    match k with
    | .arr _ => .error "TypeError: unhashable"
    | .obj _ => .error "TypeError: unhashable"
    | .str s => .ok ((jLookup fs.toList s).getD .null)
    | _ => .ok .null
  | _ => .error "AttributeError: get"

/-- Python iteration (for key in v): lists yield their elements,
strings their characters (as one-character strings), dicts their keys;
numbers, booleans and None raise TypeError. -/
def pyIter : JVal → Except String (List JVal)
  | .arr xs => .ok xs.toList
  | .str s => .ok (s.toList.map (fun c => .str (String.mk [c])))
  | .obj fs => .ok (fs.toList.map (fun p => .str p.1))
  | _ => .error "TypeError: not iterable"

/-- Digits folded most-significant-first with an accumulator. -/
def digitsAcc : List Char → ℕ → (ℕ × List Char)
  | [], acc => (acc, [])
  | c :: cs, acc =>
    if c.isDigit then digitsAcc cs (10 * acc + (c.toNat - '0'.toNat))
    else (acc, c :: cs)

/-- Count of leading digits. -/
def digitCount : List Char → ℕ
  | [] => 0
  | c :: cs => if c.isDigit then digitCount cs + 1 else 0

/-- Parse the digit part of a decimal literal: significand digits with
an optional fractional part.  Returns the combined digit value, the
number of fractional digits and the remaining characters; the numeric
value is digits divided by ten to the fractional length. -/
def parseMantissa (cs : List Char) : Option (ℕ × ℕ × List Char) :=
  let (ip, rest₁) := digitsAcc cs 0
  let ipLen := digitCount cs
  match rest₁ with
  | '.' :: rest₂ =>
    let (fp, rest₃) := digitsAcc rest₂ 0
    let fpLen := digitCount rest₂
    if ipLen = 0 ∧ fpLen = 0 then none
    else some (ip * 10 ^ fpLen + fp, fpLen, rest₃)
  | rest₂ =>
    if ipLen = 0 then none else some (ip, 0, rest₂)

/-- Parse the signed digit string of an exponent. -/
def parseSignedExp : List Char → Option (ℤ × List Char)
  | '+' :: rest =>
    if digitCount rest = 0 then none
    else some (((digitsAcc rest 0).1 : ℤ), (digitsAcc rest 0).2)
  | '-' :: rest =>
    if digitCount rest = 0 then none
    else some (-((digitsAcc rest 0).1 : ℤ), (digitsAcc rest 0).2)
  | rest =>
    if digitCount rest = 0 then none
    else some (((digitsAcc rest 0).1 : ℤ), (digitsAcc rest 0).2)

/-- Parse an optional exponent part (e or E, optional sign, digits). -/
def parseExponent (cs : List Char) : Option (ℤ × List Char) :=
  match cs with
  | 'e' :: rest => parseSignedExp rest
  | 'E' :: rest => parseSignedExp rest
  | _ => some (0, cs)

/-- Assemble the exact rational value of a parsed decimal literal:
sign, combined digit value, fractional length and exponent.  Computed
over the integers and a single normalising mkRat so that the result
evaluates inside the kernel. -/
def ratOfParts (sgn : ℤ) (digits fpLen : ℕ) (e : ℤ) : ℚ :=
  if 0 ≤ e then mkRat (sgn * digits * (10 : ℤ) ^ e.toNat) ((10 : ℕ) ^ fpLen)
  else mkRat (sgn * digits) ((10 : ℕ) ^ (fpLen + (-e).toNat))

/-- Python float(s) on a string: optional surrounding spaces, optional
sign, decimal mantissa, optional exponent.  (Python additionally
accepts forms such as inf, nan and underscore separators, which no
request in the claims exercises.)  The numeric value is exact. -/
def parseFloatStr (s : String) : Option ℚ :=
  let cs₀ := s.toList.dropWhile (fun c => c = ' ')
  let signed : ℤ × List Char :=
    match cs₀ with
    | '+' :: rest => (1, rest)
    | '-' :: rest => (-1, rest)
    | rest => (1, rest)
  match parseMantissa signed.2 with
  | none => none
  | some (digits, fpLen, rest) =>
    match parseExponent rest with
    | none => none
    | some (e, rest₂) =>
      if rest₂.dropWhile (fun c => c = ' ') = [] then
        some (ratOfParts signed.1 digits fpLen e)
      else none

/-- Python float(v) on a decoded JSON value: numbers pass through,
booleans coerce to 0 or 1, numeric strings are parsed (ValueError on
other strings), and None, lists and dicts raise TypeError. -/
def pyFloat : JVal → Except String ℚ
  | .num q => .ok q
  | .bool b => .ok (if b then 1 else 0)
  | .str s =>
    match parseFloatStr s with
    | some q => .ok q
    | none => .error "ValueError: float"
  | _ => .error "TypeError: float"

/-- Truncation of a rational toward zero, as C/Python int conversion of
a float does. -/
def ratTrunc (q : ℚ) : ℤ := q.num.tdiv (q.den : ℤ)

/-- Python int(s) on a string: optional surrounding spaces, optional
sign, decimal digits only (no decimal point). -/
def parseIntStr (s : String) : Option ℤ :=
  let cs₀ := s.toList.dropWhile (fun c => c = ' ')
  let signed : ℤ × List Char :=
    match cs₀ with
    | '+' :: rest => (1, rest)
    | '-' :: rest => (-1, rest)
    | rest => (1, rest)
  if digitCount signed.2 = 0 then none
  else
    let (n, rest) := digitsAcc signed.2 0
    if rest.dropWhile (fun c => c = ' ') = [] then some (signed.1 * n) else none

/-- Python int(v) on a decoded JSON value: numbers truncate toward
zero, booleans coerce, integer-literal strings parse (ValueError
otherwise), and None, lists and dicts raise TypeError. -/
def pyInt : JVal → Except String ℤ
  | .num q => .ok (ratTrunc q)
  | .bool b => .ok (if b then 1 else 0)
  | .str s =>
    match parseIntStr s with
    | some n => .ok n
    | none => .error "ValueError: int"
  | _ => .error "TypeError: int"

/-- Kernel-computable subtraction of rationals.  The library
subtraction is irreducible, which would block evaluation of concrete
runs; these helpers compute through mkRat and are proved equal to the
library operations below. -/
def qSub (a b : ℚ) : ℚ := mkRat (a.num * b.den - b.num * a.den) (a.den * b.den)

/-- Kernel-computable addition of rationals. -/
def qAdd (a b : ℚ) : ℚ := mkRat (a.num * b.den + b.num * a.den) (a.den * b.den)

/-- Kernel-computable multiplication of rationals. -/
def qMul (a b : ℚ) : ℚ := mkRat (a.num * b.num) (a.den * b.den)

/-- Kernel-computable division of rationals (0 on a zero divisor,
matching the library convention; the embedded code never divides by
zero). -/
def qDiv (a b : ℚ) : ℚ :=
  if 0 ≤ b.num then mkRat (a.num * b.den) (a.den * b.num.toNat)
  else mkRat (-(a.num * b.den)) (a.den * (-b.num).toNat)

theorem qSub_eq (a b : ℚ) : qSub a b = a - b := by
  have ha : ((a.den : ℚ)) ≠ 0 := by exact_mod_cast a.den_ne_zero
  have hb : ((b.den : ℚ)) ≠ 0 := by exact_mod_cast b.den_ne_zero
  conv_rhs => rw [← Rat.num_div_den a, ← Rat.num_div_den b]
  unfold qSub
  rw [Rat.mkRat_eq_divInt, Rat.divInt_eq_div, div_sub_div _ _ ha hb]
  push_cast
  ring_nf

theorem qAdd_eq (a b : ℚ) : qAdd a b = a + b := by
  have ha : ((a.den : ℚ)) ≠ 0 := by exact_mod_cast a.den_ne_zero
  have hb : ((b.den : ℚ)) ≠ 0 := by exact_mod_cast b.den_ne_zero
  conv_rhs => rw [← Rat.num_div_den a, ← Rat.num_div_den b]
  unfold qAdd
  rw [Rat.mkRat_eq_divInt, Rat.divInt_eq_div, div_add_div _ _ ha hb]
  push_cast
  ring_nf

theorem qMul_eq (a b : ℚ) : qMul a b = a * b := by
  have ha : ((a.den : ℚ)) ≠ 0 := by exact_mod_cast a.den_ne_zero
  have hb : ((b.den : ℚ)) ≠ 0 := by exact_mod_cast b.den_ne_zero
  conv_rhs => rw [← Rat.num_div_den a, ← Rat.num_div_den b]
  unfold qMul
  rw [Rat.mkRat_eq_divInt, Rat.divInt_eq_div, div_mul_div_comm]
  push_cast
  ring_nf

theorem qDiv_eq (a b : ℚ) : qDiv a b = a / b := by
  have ha : ((a.den : ℚ)) ≠ 0 := by exact_mod_cast a.den_ne_zero
  have hb : ((b.den : ℚ)) ≠ 0 := by exact_mod_cast b.den_ne_zero
  rcases lt_trichotomy b.num 0 with hn | hn | hn
  · have hng : ¬ (0 ≤ b.num) := by omega
    have hbn : ((b.num : ℚ)) ≠ 0 := by
      simpa using (show b.num ≠ 0 by omega)
    unfold qDiv
    rw [if_neg hng, Rat.mkRat_eq_divInt, Rat.divInt_eq_div]
    conv_rhs => rw [← Rat.num_div_den a, ← Rat.num_div_den b]
    push_cast [Int.toNat_of_nonneg (show (0:ℤ) ≤ -b.num by omega)]
    field_simp
  · have hb0 : b = 0 := Rat.num_eq_zero.mp hn
    subst hb0
    unfold qDiv
    simp [Rat.mkRat_eq_divInt]
  · have hng : (0 ≤ b.num) := by omega
    have hbn : ((b.num : ℚ)) ≠ 0 := by
      simpa using (show b.num ≠ 0 by omega)
    unfold qDiv
    rw [if_pos hng, Rat.mkRat_eq_divInt, Rat.divInt_eq_div]
    conv_rhs => rw [← Rat.num_div_den a, ← Rat.num_div_den b]
    push_cast [Int.toNat_of_nonneg hng]
    field_simp

example : pyFloat (.str "0.5") = .ok (mkRat 1 2) := by decide
example : pyFloat (.str "1") = .ok 1 := by decide
example : pyFloat (.str "abc") = .error "ValueError: float" := by decide
example : pyFloat (.str "-2.5e1") = .ok (mkRat (-25) 1) := by decide
example : pyInt (.str "42") = .ok 42 := by decide
example : pyInt (.str "4.2") = .error "ValueError: int" := by decide
example : pyInt (.num (mkRat 7 2)) = .ok 3 := by decide
example : pyInt (.num (mkRat (-7) 2)) = .ok (-3) := by decide

/-- A floating-point value as the embedding sees it: an exact finite
value, the two infinities, or NaN.  The claims never depend on
rounding, so finite values are exact rationals. -/
inductive PFloat where
  | fin (q : ℚ) : PFloat
  | pinf : PFloat
  | ninf : PFloat
  | nan : PFloat
deriving DecidableEq

/-- np.isfinite on one value. -/
def PFloat.isFin : PFloat → Bool
  | .fin _ => true
  | _ => false

/-- Elementwise x - c for a finite float c (the broadcasted
subtraction array - vmin; vmin is always finite there). -/
def psubQ : PFloat → ℚ → PFloat
  | .fin q, c => .fin (qSub q c)
  | .pinf, _ => .pinf
  | .ninf, _ => .ninf
  | .nan, _ => .nan

/-- Elementwise x / d for a finite float d (the broadcasted division
by vmax - vmin, which is positive whenever evaluated). -/
def pdivQ : PFloat → ℚ → PFloat
  | .fin q, d => .fin (qDiv q d)
  | .pinf, d => if d < 0 then .ninf else .pinf
  | .ninf, d => if d < 0 then .pinf else .ninf
  | .nan, _ => .nan

/-- np.clip(x, 0.0, 1.0) on one value: NaN propagates, infinities
saturate, finite values clamp into the unit interval. -/
def pclip01 : PFloat → PFloat
  | .fin q => .fin (min 1 (max 0 q))
  | .pinf => .fin 1
  | .ninf => .fin 0
  | .nan => .nan

/-- Elementwise x * c for a finite float c (the scaling by 255). -/
def pmulQ : PFloat → ℚ → PFloat
  | .fin q, c => .fin (qMul q c)
  | .pinf, c => if c < 0 then .ninf else if 0 < c then .pinf else .nan
  | .ninf, c => if c < 0 then .pinf else if 0 < c then .ninf else .nan
  | .nan, _ => .nan

/-- numpy astype(np.uint8) on one float64 value: C truncation toward
zero reduced modulo 256; conversion of NaN or an infinity is platform
defined and modelled as the x86-64 result 0 (the embedded flow only
casts values already clipped into [0, 255], plus NaN). -/
def castU8 : PFloat → ℕ
  | .fin q => ((ratTrunc q).emod 256).toNat
  | _ => 0

/-- A 2D numpy array of floats, row-major (rectangular in every actual
use). -/
abbrev Mat := List (List PFloat)

/-- A 3D volume. -/
abbrev Vol3 := List (List (List PFloat))

/-- The finite entries of a 2D array in row-major order, as produced
by array[np.isfinite(array)]. -/
def finiteVals (a : Mat) : List ℚ :=
  a.flatten.filterMap (fun x => match x with | .fin q => some q | _ => none)

/-- The minimum of a nonempty list of rationals (ndarray.min; the
empty case is never evaluated and returns 0). -/
def listMin : List ℚ → ℚ
  | [] => 0
  | x :: xs => xs.foldl min x

/-- The maximum of a nonempty list of rationals (ndarray.max). -/
def listMax : List ℚ → ℚ
  | [] => 0
  | x :: xs => xs.foldl max x

/-- np.zeros_like(array, dtype=np.uint8): an all-zero byte raster of
the same shape. -/
def zerosLike (a : Mat) : List (List ℕ) :=
  a.map (fun row => row.map (fun _ => 0))

/-- The function _normalize_to_uint8 of src/app/main.py (lines 52-62):
min and max are taken over the finite entries only; an empty finite
set or a non-positive range yields an all-zero raster of the same
shape; otherwise the array is shifted by vmin, divided by the range,
clipped to [0, 1], scaled by 255 and cast elementwise to uint8. -/
def normalizeToUint8 (a : Mat) : List (List ℕ) :=
  let finite := finiteVals a
  if finite.isEmpty then zerosLike a
  else
    let vmin := listMin finite
    let vmax := listMax finite
    if vmax ≤ vmin then zerosLike a
    else
      a.map (fun row => row.map (fun x =>
        castU8 (pmulQ (pclip01 (pdivQ (psubQ x vmin) (qSub vmax vmin))) 255)))

example : normalizeToUint8 [[.fin 0, .fin 9]] = [[0, 255]] := by decide
example : normalizeToUint8 [[.fin 0, .fin 1, .fin 9]] = [[0, 28, 255]] := by decide
example : normalizeToUint8 [[.nan, .pinf], [.ninf, .fin 3]] = [[0, 0], [0, 0]] := by decide
example : normalizeToUint8 [[.nan, .pinf, .fin 1], [.ninf, .fin 3, .fin 2]]
    = [[0, 255, 0], [0, 255, 127]] := by decide
example : normalizeToUint8 [[]] = [[]] := by decide

/-- One entry of the exported configuration produced by
_build_transform_config: canonical transform name plus parameter
mapping in insertion order. -/
structure ConfigEntry where
  name : String
  params : List (String × JVal)
deriving DecidableEq

/-- The full exported configuration: the library marker and the
ordered entries. -/
structure TransformConfig where
  library : String
  transforms : List ConfigEntry
deriving DecidableEq

/-- An instantiated torchio transform, as produced by
_build_transform_list: the constructor's class name and its keyword
arguments in call order.  The library itself is an external
collaborator, so construction is modelled as recording the forwarded
arguments. -/
structure TransformInstance where
  name : String
  args : List (String × JVal)
deriving DecidableEq

/-- The default spatial pass order shared by _build_transform_config
and _build_transform_list. -/
def defaultSpatialOrder : JVal :=
  JVal.arrOf [.str "flip", .str "affine", .str "elastic", .str "anisotropy",
    .str "motion", .str "ghosting", .str "spike", .str "swap"]

/-- The default intensity pass order. -/
def defaultIntensityOrder : JVal :=
  JVal.arrOf [.str "noise", .str "gamma", .str "bias", .str "blur"]

/-- Safe dict access after an isinstance(payload, dict) guard: the
method payload.get(k, d) on a dict never raises.  (The fall-through
arm is unreachable behind the guard.) -/
def dictGetD (payload : JVal) (k : String) (d : JVal) : JVal :=
  match payload with
  | .obj pfs => (jLookup pfs.toList k).getD d
  | _ => d

/-- The body of the spatial loop of _build_transform_config
(src/app/main.py lines 90-156) for a single iterated key: skips
non-dict or unenabled entries, otherwise emits the named spec with the
payload's parameters or the documented defaults.  Note the float
coercion applied to the flip probability; the parameter reads
themselves are infallible dict accesses behind the isinstance
guard. -/
def spatialConfigStep (tp : JVal) (key : JVal) : Except String (Option ConfigEntry) :=
  match pyGetKey tp key with
  | .error e => .error e
  | .ok payload =>
    if !(isDict payload) || !(pyTruthy (dictGetD payload "enabled" .null)) then .ok none
    else if key = .str "flip" then
      match pyFloat (dictGetD payload "p" (.num (mkRat 1 2))) with
      | .error e => .error e
      | .ok p => .ok (some ⟨"RandomFlip",
          [("axes", dictGetD payload "axes" (JVal.arrOf [.str "lr"])), ("p", .num p)]⟩)
    else if key = .str "affine" then
      .ok (some ⟨"RandomAffine",
        [("scales", dictGetD payload "scales" (JVal.arrOf [.num (mkRat 9 10), .num (mkRat 11 10)])),
         ("degrees", dictGetD payload "degrees" (.num 10)),
         ("translation", dictGetD payload "translation" (.num 5))]⟩)
    else if key = .str "elastic" then
      .ok (some ⟨"RandomElasticDeformation",
        [("num_control_points", dictGetD payload "numControlPoints" (.num 7)),
         ("max_displacement", dictGetD payload "maxDisplacement" (.num 7))]⟩)
    else if key = .str "anisotropy" then
      .ok (some ⟨"RandomAnisotropy",
        [("axes", dictGetD payload "axes" (JVal.arrOf [.num 2])),
         ("downsampling", dictGetD payload "downsampling" (.num 2))]⟩)
    else if key = .str "motion" then
      .ok (some ⟨"RandomMotion",
        [("degrees", dictGetD payload "degrees" (.num 10)),
         ("translation", dictGetD payload "translation" (.num 10)),
         ("num_transforms", dictGetD payload "numTransforms" (.num 2))]⟩)
    else if key = .str "ghosting" then
      .ok (some ⟨"RandomGhosting",
        [("num_ghosts", dictGetD payload "numGhosts" (.num 4)),
         ("intensity", dictGetD payload "intensity" (.num (mkRat 1 2)))]⟩)
    else if key = .str "spike" then
      .ok (some ⟨"RandomSpike",
        [("num_spikes", dictGetD payload "numSpikes" (.num 1)),
         ("intensity", dictGetD payload "intensity" (.num 1))]⟩)
    else if key = .str "swap" then
      .ok (some ⟨"RandomSwap",
        [("patch_size", dictGetD payload "patchSize" (.num 15)),
         ("num_iterations", dictGetD payload "numIterations" (.num 100))]⟩)
    else .ok none

/-- The body of the intensity loop of _build_transform_config
(src/app/main.py lines 159-179) for a single iterated key.  Note the
float coercions applied to the noise mean and std (mean first, as the
dict literal evaluates). -/
def intensityConfigStep (intensity : JVal) (key : JVal) : Except String (Option ConfigEntry) :=
  match pyGetKey intensity key with
  | .error e => .error e
  | .ok payload =>
    if !(isDict payload) || !(pyTruthy (dictGetD payload "enabled" .null)) then .ok none
    else if key = .str "noise" then
      match pyFloat (dictGetD payload "mean" (.num 0)) with
      | .error e => .error e
      | .ok mean =>
        match pyFloat (dictGetD payload "std" (.num (mkRat 1 10))) with
        | .error e => .error e
        | .ok std => .ok (some ⟨"RandomNoise", [("mean", .num mean), ("std", .num std)]⟩)
    else if key = .str "gamma" then
      .ok (some ⟨"RandomGamma",
        [("log_gamma", dictGetD payload "logGamma"
            (JVal.arrOf [.num (mkRat (-3) 10), .num (mkRat 3 10)]))]⟩)
    else if key = .str "bias" then
      .ok (some ⟨"RandomBiasField",
        [("coefficients", dictGetD payload "coefficients" (.num (mkRat 1 2))),
         ("order", dictGetD payload "order" (.num 3))]⟩)
    else if key = .str "blur" then
      .ok (some ⟨"RandomBlur",
        [("std", dictGetD payload "std" (JVal.arrOf [.num 0, .num 2]))]⟩)
    else .ok none

/-- One iteration of a builder loop: run the per-key step and append
its entry, if any, to the accumulator (transforms.append in the
source). -/
def accumStep {γ : Type} (step : JVal → Except String (Option γ))
    (acc : List γ) (k : JVal) : Except String (List γ) := do
  match ← step k with
  | some e => pure (acc ++ [e])
  | none => pure acc

/-- The function _build_transform_config of src/app/main.py (lines
77-181): reads the order hints, walks the spatial keys against the
top-level payload and the intensity keys against the intensity
sub-object, and collects the enabled transform specs in order. -/
def buildTransformConfig (tp : JVal) : Except String TransformConfig := do
  let order ← pyGetD tp "order" (JVal.objOf [])
  let orderSpatial ← pyGetD order "spatial" defaultSpatialOrder
  let orderIntensity ← pyGetD order "intensity" defaultIntensityOrder
  let spatialKeys ← pyIter orderSpatial
  let ts₁ ← spatialKeys.foldlM (accumStep (spatialConfigStep tp)) ([] : List ConfigEntry)
  let intensity ← pyGetD tp "intensity" (JVal.objOf [])
  let intensityKeys ← pyIter orderIntensity
  let ts₂ ← intensityKeys.foldlM (accumStep (intensityConfigStep intensity)) ts₁
  return ⟨"torchio", ts₂⟩

/-- The body of the spatial loop of _build_transform_list
(src/app/main.py lines 208-266) for a single iterated key: identical
traversal to the config step, but parameters are forwarded raw to the
constructors (no float coercion on the flip probability), so the
branches are infallible behind the guard. -/
def spatialListStep (tp : JVal) (key : JVal) : Except String (Option TransformInstance) :=
  match pyGetKey tp key with
  | .error e => .error e
  | .ok payload =>
    if !(isDict payload) || !(pyTruthy (dictGetD payload "enabled" .null)) then .ok none
    else if key = .str "flip" then
      .ok (some ⟨"RandomFlip",
        [("axes", dictGetD payload "axes" (JVal.arrOf [.str "lr"])),
         ("p", dictGetD payload "p" (.num (mkRat 1 2)))]⟩)
    else if key = .str "affine" then
      .ok (some ⟨"RandomAffine",
        [("scales", dictGetD payload "scales" (JVal.arrOf [.num (mkRat 9 10), .num (mkRat 11 10)])),
         ("degrees", dictGetD payload "degrees" (.num 10)),
         ("translation", dictGetD payload "translation" (.num 5))]⟩)
    else if key = .str "elastic" then
      .ok (some ⟨"RandomElasticDeformation",
        [("num_control_points", dictGetD payload "numControlPoints" (.num 7)),
         ("max_displacement", dictGetD payload "maxDisplacement" (.num 7))]⟩)
    else if key = .str "anisotropy" then
      .ok (some ⟨"RandomAnisotropy",
        [("axes", dictGetD payload "axes" (JVal.arrOf [.num 2])),
         ("downsampling", dictGetD payload "downsampling" (.num 2))]⟩)
    else if key = .str "motion" then
      .ok (some ⟨"RandomMotion",
        [("degrees", dictGetD payload "degrees" (.num 10)),
         ("translation", dictGetD payload "translation" (.num 10)),
         ("num_transforms", dictGetD payload "numTransforms" (.num 2))]⟩)
    else if key = .str "ghosting" then
      .ok (some ⟨"RandomGhosting",
        [("num_ghosts", dictGetD payload "numGhosts" (.num 4)),
         ("intensity", dictGetD payload "intensity" (.num (mkRat 1 2)))]⟩)
    else if key = .str "spike" then
      .ok (some ⟨"RandomSpike",
        [("num_spikes", dictGetD payload "numSpikes" (.num 1)),
         ("intensity", dictGetD payload "intensity" (.num 1))]⟩)
    else if key = .str "swap" then
      .ok (some ⟨"RandomSwap",
        [("patch_size", dictGetD payload "patchSize" (.num 15)),
         ("num_iterations", dictGetD payload "numIterations" (.num 100))]⟩)
    else .ok none

/-- The body of the intensity loop of _build_transform_list
(src/app/main.py lines 269-288) for a single iterated key (raw
parameter forwarding, no float coercion on mean and std). -/
def intensityListStep (intensity : JVal) (key : JVal) : Except String (Option TransformInstance) :=
  match pyGetKey intensity key with
  | .error e => .error e
  | .ok payload =>
    if !(isDict payload) || !(pyTruthy (dictGetD payload "enabled" .null)) then .ok none
    else if key = .str "noise" then
      .ok (some ⟨"RandomNoise",
        [("mean", dictGetD payload "mean" (.num 0)),
         ("std", dictGetD payload "std" (.num (mkRat 1 10)))]⟩)
    else if key = .str "gamma" then
      .ok (some ⟨"RandomGamma",
        [("log_gamma", dictGetD payload "logGamma"
            (JVal.arrOf [.num (mkRat (-3) 10), .num (mkRat 3 10)]))]⟩)
    else if key = .str "bias" then
      .ok (some ⟨"RandomBiasField",
        [("coefficients", dictGetD payload "coefficients" (.num (mkRat 1 2))),
         ("order", dictGetD payload "order" (.num 3))]⟩)
    else if key = .str "blur" then
      .ok (some ⟨"RandomBlur",
        [("std", dictGetD payload "std" (JVal.arrOf [.num 0, .num 2]))]⟩)
    else .ok none

/-- The function _build_transform_list of src/app/main.py (lines
198-290): the same traversal as _build_transform_config, instantiating
the torchio transforms in order instead of emitting config entries. -/
def buildTransformList (tp : JVal) : Except String (List TransformInstance) := do
  let order ← pyGetD tp "order" (JVal.objOf [])
  let orderSpatial ← pyGetD order "spatial" defaultSpatialOrder
  let orderIntensity ← pyGetD order "intensity" defaultIntensityOrder
  let spatialKeys ← pyIter orderSpatial
  let ts₁ ← spatialKeys.foldlM (accumStep (spatialListStep tp)) ([] : List TransformInstance)
  let intensity ← pyGetD tp "intensity" (JVal.objOf [])
  let intensityKeys ← pyIter orderIntensity
  let ts₂ ← intensityKeys.foldlM (accumStep (intensityListStep intensity)) ts₁
  return ts₂

example : buildTransformConfig (JVal.objOf []) = .ok ⟨"torchio", []⟩ := by decide
example : buildTransformList (JVal.objOf []) = .ok [] := by decide
example : buildTransformConfig (JVal.num 5) = .error "AttributeError: get" := by decide
example : buildTransformConfig (JVal.objOf [("order", .num 5)])
    = .error "AttributeError: get" := by decide
example : buildTransformConfig
    (JVal.objOf [("flip", JVal.objOf [("enabled", .bool true), ("p", .str "1")])])
    = .ok ⟨"torchio", [⟨"RandomFlip",
        [("axes", JVal.arrOf [.str "lr"]), ("p", .num 1)]⟩]⟩ := by decide
example : buildTransformList
    (JVal.objOf [("flip", JVal.objOf [("enabled", .bool true), ("p", .str "1")])])
    = .ok [⟨"RandomFlip", [("axes", JVal.arrOf [.str "lr"]), ("p", .str "1")]⟩] := by decide

/-- Python str.lower() restricted to ASCII (the only axis names in
use), character by character so that it evaluates in the kernel. -/
def pyStrLower (s : String) : String := String.mk (s.toList.map Char.toLower)

/-- np.clip(index, 0, hi) on an integer index: the maximum with 0 is
applied first, then the minimum with hi. -/
def npClipIdx (i : ℤ) (hi : ℤ) : ℤ := min (max i 0) hi

/-- numpy basic indexing along one axis: negative indices count from
the end; an index out of range raises IndexError. -/
def npGet {α : Type} (xs : List α) (i : ℤ) : Except String α :=
  let j : ℤ := if i < 0 then i + xs.length else i
  if h : 0 ≤ j ∧ j.toNat < xs.length then .ok (xs.get ⟨j.toNat, h.2⟩)
  else .error "IndexError"

/-- shape[1] of a 3D array (rectangular arrays only, as numpy
guarantees). -/
def shape1 (v : Vol3) : ℕ := (v.getD 0 []).length

/-- shape[2] of a 3D array. -/
def shape2 (v : Vol3) : ℕ := ((v.getD 0 []).getD 0 []).length

/-- The function _slice_from_volume of src/app/main.py (lines 65-74):
lowercases the axis name, clamps the index into [0, size - 1] along
the selected axis (sagittal is axis 0, coronal is axis 1, anything
else falls through to axial, axis 2) and extracts the 2D plane. -/
def sliceFromVolume (volume : Vol3) (axis : String) (index : ℤ) : Except String Mat :=
  let axis := pyStrLower axis
  if axis = "sagittal" then
    npGet volume (npClipIdx index ((volume.length : ℤ) - 1))
  else if axis = "coronal" then
    volume.mapM (fun plane => npGet plane (npClipIdx index ((shape1 volume : ℤ) - 1)))
  else
    volume.mapM (fun plane =>
      plane.mapM (fun row => npGet row (npClipIdx index ((shape2 volume : ℤ) - 1))))

/-- Number of rows (shape[0]) of a 2D array. -/
def numRows (m : Mat) : ℕ := m.length

/-- Number of columns (shape[1]) of a 2D array (rectangular arrays
only). -/
def numCols (m : Mat) : ℕ := (m.getD 0 []).length

/-- Entry access in a 2D array (rectangular arrays only; the default
is never reached in actual use). -/
def mGet (m : Mat) (i j : ℕ) : PFloat := (m.getD i []).getD j (.fin 0)

/-- One counter-clockwise quarter-turn, np.rot90(m): entry (i, j) of
the result is entry (j, cols - 1 - i) of the input. -/
def rot90 (m : Mat) : Mat :=
  (List.range (numCols m)).map (fun i =>
    (List.range (numRows m)).map (fun j => mGet m j (numCols m - 1 - i)))

/-- np.rot90(m, k): k is reduced modulo 4, each step one
counter-clockwise quarter-turn. -/
def npRot90 (m : Mat) (k : ℤ) : Mat :=
  match (k.emod 4).toNat with
  | 0 => m
  | 1 => rot90 m
  | 2 => rot90 (rot90 m)
  | _ => rot90 (rot90 (rot90 m))

/-- np.fliplr(m): reverses every row (entry (i, j) becomes entry
(i, cols - 1 - j)). -/
def fliplr (m : Mat) : Mat := m.map List.reverse

/-- The per-axis orientation correction applied by preview_slice
(src/app/main.py lines 459-465): axial is rotated by k = 3, coronal by
k = 1, sagittal is flipped horizontally then rotated by k = -1; any
other axis name is left untouched. -/
def orientSlice (axis : String) (m : Mat) : Mat :=
  let axisLower := pyStrLower axis
  if axisLower = "axial" then npRot90 m 3
  else if axisLower = "coronal" then npRot90 m 1
  else if axisLower = "sagittal" then npRot90 (fliplr m) (-1)
  else m

/-- An error surfacing from a request handler: either a deliberate
HTTPException carrying status code and detail, or an uncaught Python
exception (which the framework turns into a 500 response). -/
inductive PyErr where
  | http (status : ℕ) (detail : String) : PyErr
  | exn (msg : String) : PyErr
deriving DecidableEq

/-- Lift an uncaught Python exception into the handler error type. -/
def liftExn {α : Type} : Except String α → Except PyErr α
  | .ok a => .ok a
  | .error e => .error (.exn e)

/-- The states of the three process-wide random number generators in
use (the random module, numpy's global generator, torch).  States are
abstracted to tokens: seeding with an integer moves a generator to the
state determined by that integer; how applying a pipeline consumes
randomness is the business of the opaque pipeline argument. -/
structure RNGState where
  pythonState : ℤ
  numpyState : ℤ
  torchState : ℤ
deriving DecidableEq

/-- The seeding block of preview_slice (src/app/main.py lines
451-453): random.seed(n), then np.random.seed(n), then
torch.manual_seed(n).  numpy's global seed accepts only integers in
[0, 2^32); outside that range it raises ValueError after the random
module was already reseeded. -/
def applySeed (n : ℤ) (rng : RNGState) : Except String RNGState :=
  let rng₁ : RNGState := { rng with pythonState := n }
  if 0 ≤ n ∧ n < 2 ^ 32 then
    .ok { rng₁ with numpyState := n, torchState := n }
  else .error "ValueError: seed out of range"

/-- The volume-store lookup at the top of preview_slice (lines
434-437): a falsy or absent volume id gives 404; an unhashable id
raises TypeError; a missing key gives 404. -/
def fetchVolume (store : List (String × Vol3)) (volumeId : JVal) : Except PyErr Vol3 :=
  if !(pyTruthy volumeId) then .error (.http 404 "Volume not found.")
  else
    match volumeId with
    | .arr _ => .error (.exn "TypeError: unhashable")
    | .obj _ => .error (.exn "TypeError: unhashable")
    | .str s =>
      match (store.find? (fun p => p.1 == s)).map (fun p => p.2) with
      | some v => .ok v
      | none => .error (.http 404 "Volume not found.")
    | _ => .error (.http 404 "Volume not found.")

/-- Extraction of the underlying string before a .lower() attribute
call: non-strings raise AttributeError. -/
def pyAsStr : JVal → Except String String
  | .str s => .ok s
  | _ => .error "AttributeError: lower"

/-- The handler preview_slice of src/app/main.py (lines 426-471), up
to the byte-level PNG encoding (which is external): fetches the stored
volume, builds the transform pipeline from the payload, and, only when
the pipeline is nonempty, optionally seeds the process RNGs (a seed
that fails int() is silently discarded) and applies the composed
pipeline; the resulting volume is sliced, orientation-corrected and
normalized.  The torchio composition-and-application is the opaque
argument applyP, mapping the instantiated transform list, the volume
and the RNG states to a transformed volume and advanced states.  The
payload fields volume_id, axis (default "axial"), index (default 0),
transforms (default empty dict) and seed (default None) arrive already
extracted, as preview_slice's lines 428-432 read them. -/
def previewSlice
    (applyP : List TransformInstance → Vol3 → RNGState → Vol3 × RNGState)
    (store : List (String × Vol3))
    (volumeId axisJ indexJ transformsPayload seedJ : JVal)
    (rng : RNGState) : Except PyErr (List (List ℕ) × RNGState) := do
  let volume ← fetchVolume store volumeId
  let transformList ← liftExn (buildTransformList transformsPayload)
  let stepped ←
    if transformList.isEmpty then pure (volume, rng)
    else
      if seedJ = JVal.null then pure (applyP transformList volume rng)
      else
        match pyInt seedJ with
        | .ok n => do
          let rng' ← liftExn (applySeed n rng)
          pure (applyP transformList volume rng')
        | .error _ => pure (applyP transformList volume rng)
  let idx ← liftExn (pyInt indexJ)
  let axisS ← liftExn (pyAsStr axisJ)
  let slice2d ← liftExn (sliceFromVolume stepped.1 axisS idx)
  pure (normalizeToUint8 (orientSlice axisS slice2d), stepped.2)

example :
    previewSlice (fun _ v r => (v, r)) [("v1", [[[.fin 0, .fin 1], [.fin 2, .fin 3]]])]
      (.str "v1") (.str "axial") (.num 0) (JVal.objOf []) .null ⟨0, 0, 0⟩
    = .ok ([[0], [255]], ⟨0, 0, 0⟩) := by decide

/-- Split a path's characters at separators. -/
def splitPathAux : List Char → List Char → List String
  | [], acc => [String.mk acc.reverse]
  | '/' :: rest, acc => String.mk acc.reverse :: splitPathAux rest []
  | c :: rest, acc => splitPathAux rest (c :: acc)

/-- Components of a POSIX path string, with repeated or trailing
separators collapsed (as pathlib does on construction). -/
def splitPath (s : String) : List String :=
  (splitPathAux s.toList []).filter (fun c => c ≠ "")

/-- Whether the path string is absolute. -/
def isAbsPath (s : String) : Bool :=
  match s.toList with
  | '/' :: _ => true
  | _ => false

/-- Lexical canonicalization of an absolute path given by its
components, as Path.resolve performs on a tree without symbolic
links: single dots disappear and a double dot removes the preceding
component (at the filesystem root it stays at the root). -/
def canon (cs : List String) : List String :=
  cs.foldl (fun acc c =>
    if c = "." then acc
    else if c = ".." then acc.dropLast
    else acc ++ [c]) []

/-- The function _resolve_bids_path of src/app/main.py (lines 41-49),
with the BIDS root given by its absolute components: an empty or
missing path falls back to the current directory, the path is joined
below the root (pathlib discards the root when the path is absolute),
the join is resolved lexically. -/
def bidsTarget (root : List String) (relativePath : String) : List String :=
  let p := if relativePath = "" then "." else relativePath
  let joined := if isAbsPath p then splitPath p else root ++ splitPath p
  canon joined

/-- The membership check and outcome of _resolve_bids_path: the
resolved target must still lie inside the resolved root, else
HTTP 400. -/
def resolveBidsPath (root : List String) (relativePath : String) : Except PyErr (List String) :=
  let target := bidsTarget root relativePath
  if (canon root).isPrefixOf target then .ok target
  else .error (.http 400 "Invalid BIDS path.")

/-- PurePosixPath(...).name: the final path component. -/
def pathName (s : String) : String := (splitPath s).getLastD ""

/-- The position of the last occurrence of a character. -/
def lastIdxOf (c : Char) : List Char → Option ℕ
  | [] => none
  | x :: xs =>
    match lastIdxOf c xs with
    | some i => some (i + 1)
    | none => if x = c then some 0 else none

/-- PurePosixPath(...).suffix: the substring of the final component
from its last dot, provided that dot is neither leading nor trailing;
otherwise the empty string. -/
def pathSuffix (s : String) : String :=
  let name := (pathName s).toList
  match lastIdxOf '.' name with
  | some i => if 0 < i ∧ i + 1 < name.length then String.mk (name.drop i) else ""
  | none => ""

/-- The filename gate of upload_volume (src/app/main.py lines
388-395): a falsy (empty) filename gives 400 missing-filename;
otherwise the lowercased final suffix must be one of .nii or .gz, else
400 wrong-suffix.  Reading and parsing the uploaded bytes happens only
after this gate passes. -/
def uploadVolumeCheck (filename : String) : Except PyErr Unit :=
  if filename = "" then .error (.http 400 "Missing filename.")
  else
    let suffix := pyStrLower (pathSuffix filename)
    if suffix = ".nii" ∨ suffix = ".gz" then .ok ()
    else .error (.http 400 "Only .nii or .nii.gz supported.")

/-- String suffix test (the spec's notion of a filename ending). -/
def strEndsWith (s suffix : String) : Bool := suffix.toList.isSuffixOf s.toList

example : resolveBidsPath ["data", "bids"] "../etc"
    = .error (.http 400 "Invalid BIDS path.") := by decide
example : resolveBidsPath ["data", "bids"] "sub-01/anat"
    = .ok ["data", "bids", "sub-01", "anat"] := by decide
example : resolveBidsPath ["data", "bids"] "" = .ok ["data", "bids"] := by decide
example : resolveBidsPath ["data", "bids"] "/etc"
    = .error (.http 400 "Invalid BIDS path.") := by decide
example : resolveBidsPath ["data", "etc"] "../etc" = .ok ["data", "etc"] := by decide
example : pathSuffix "foo.tar.gz" = ".gz" := by decide
example : pathSuffix "dir/foo.NII" = ".NII" := by decide
example : pathSuffix ".bashrc" = "" := by decide
example : pathSuffix "foo." = "" := by decide
example : uploadVolumeCheck "brain.nii.gz" = .ok () := by decide
example : uploadVolumeCheck "archive.tar.gz" = .ok () := by decide
example : uploadVolumeCheck "brain.NII" = .ok () := by decide
example : uploadVolumeCheck "brain.png" = .error (.http 400 "Only .nii or .nii.gz supported.") := by decide
example : uploadVolumeCheck "" = .error (.http 400 "Missing filename.") := by decide
example : strEndsWith "archive.tar.gz" ".nii.gz" = false := by decide

theorem getD_map_range {α : Type} (n : ℕ) (f : ℕ → α) (d : α) (i : ℕ) (h : i < n) :
    ((List.range n).map f).getD i d = f i := by
  rw [List.getD_eq_getElem?_getD, List.getElem?_map, List.getElem?_range h]
  rfl

theorem getD_fliplr (m : Mat) (i : ℕ) (hi : i < m.length) :
    (fliplr m).getD i [] = (m.getD i []).reverse := by
  unfold fliplr
  rw [List.getD_eq_getElem?_getD, List.getElem?_map, List.getElem?_eq_getElem hi,
    List.getD_eq_getElem?_getD, List.getElem?_eq_getElem hi]
  rfl

theorem getD_reverse {α : Type} (l : List α) (i : ℕ) (d : α) (h : i < l.length) :
    l.reverse.getD i d = l.getD (l.length - 1 - i) d := by
  rw [List.getD_eq_getElem?_getD, List.getD_eq_getElem?_getD, List.getElem?_reverse h]

theorem numRows_rot90 (m : Mat) : numRows (rot90 m) = numCols m := by
  simp [rot90, numRows]

theorem numCols_rot90 (m : Mat) (h : 0 < numCols m) : numCols (rot90 m) = numRows m := by
  unfold numCols rot90
  rw [getD_map_range _ _ _ 0 h]
  simp [numRows]

theorem mGet_rot90 (m : Mat) (i j : ℕ) (hi : i < numCols m) (hj : j < numRows m) :
    mGet (rot90 m) i j = mGet m j (numCols m - 1 - i) := by
  unfold mGet rot90
  rw [getD_map_range _ _ _ i hi, getD_map_range _ _ _ j hj]
  rfl

theorem mGet_rot270 (m : Mat) (hr : 0 < numRows m) (hc : 0 < numCols m)
    (i j : ℕ) (hi : i < numCols m) (hj : j < numRows m) :
    mGet (rot90 (rot90 (rot90 m))) i j = mGet m (numRows m - 1 - j) i := by
  have h1r : numRows (rot90 m) = numCols m := numRows_rot90 m
  have h1c : numCols (rot90 m) = numRows m := numCols_rot90 m hc
  have h2r : numRows (rot90 (rot90 m)) = numRows m := by
    rw [numRows_rot90, h1c]
  have h2c : numCols (rot90 (rot90 m)) = numCols m := by
    rw [numCols_rot90 _ (by rw [h1c]; exact hr), h1r]
  rw [mGet_rot90 _ i j (by rw [h2c]; exact hi) (by rw [h2r]; exact hj), h2c]
  rw [mGet_rot90 _ j _ (by rw [h1c]; exact hj) (by rw [h1r]; omega), h1c]
  rw [mGet_rot90 _ _ _ (by omega) (by omega)]
  congr 1
  omega

theorem numRows_fliplr (m : Mat) : numRows (fliplr m) = numRows m := by
  simp [fliplr, numRows]

theorem numCols_fliplr (m : Mat) : numCols (fliplr m) = numCols m := by
  cases m with
  | nil => rfl
  | cons x xs => simp [fliplr, numCols]

theorem mGet_fliplr (m : Mat) (i j : ℕ) (hi : i < numRows m)
    (hrow : (m.getD i []).length = numCols m) (hj : j < numCols m) :
    mGet (fliplr m) i j = mGet m i (numCols m - 1 - j) := by
  unfold mGet
  rw [getD_fliplr m i (by unfold numRows at hi; exact hi),
    getD_reverse _ _ _ (by rw [hrow]; exact hj), hrow]

/-- C5: for every extracted 2D slice, the preview applies the fixed
per-axis orientation correction before normalization: a slice taken
along an axis that lowercases to axial is rotated 270 degrees (three
counter-clockwise quarter-turns), coronal 90 degrees, and sagittal is
horizontally flipped and then rotated 270 degrees; on positive
rectangular dimensions the corrections act on entries as the
corresponding index maps. -/
theorem C5_orientation_correction (ax : String) (m : Mat) :
    (pyStrLower ax = "axial" → orientSlice ax m = rot90 (rot90 (rot90 m)))
    ∧ (pyStrLower ax = "coronal" → orientSlice ax m = rot90 m)
    ∧ (pyStrLower ax = "sagittal" → orientSlice ax m = rot90 (rot90 (rot90 (fliplr m))))
    ∧ (0 < numRows m → 0 < numCols m →
        ∀ i j, i < numCols m → j < numRows m →
          mGet (orientSlice "axial" m) i j = mGet m (numRows m - 1 - j) i
          ∧ mGet (orientSlice "coronal" m) i j = mGet m j (numCols m - 1 - i)
          ∧ ((m.getD (numRows m - 1 - j) []).length = numCols m →
              mGet (orientSlice "sagittal" m) i j
                = mGet m (numRows m - 1 - j) (numCols m - 1 - i))) := by
  refine ⟨fun h => ?_, fun h => ?_, fun h => ?_, fun hr hc i j hi hj => ⟨?_, ?_, fun hrow => ?_⟩⟩
  · simp only [orientSlice, h]
    rfl
  · simp only [orientSlice, h]
    rfl
  · simp only [orientSlice, h]
    rfl
  · have : orientSlice "axial" m = rot90 (rot90 (rot90 m)) := rfl
    rw [this, mGet_rot270 m hr hc i j hi hj]
  · have : orientSlice "coronal" m = rot90 m := rfl
    rw [this, mGet_rot90 m i j hi hj]
  · have : orientSlice "sagittal" m = rot90 (rot90 (rot90 (fliplr m))) := rfl
    rw [this, mGet_rot270 (fliplr m) (by rw [numRows_fliplr]; exact hr)
      (by rw [numCols_fliplr]; exact hc) i j (by rw [numCols_fliplr]; exact hi)
      (by rw [numRows_fliplr]; exact hj), numRows_fliplr]
    exact mGet_fliplr m _ _ (by unfold numRows at hr hj ⊢; omega) hrow hi

/-- Witness for C5 at a concrete 2 x 3 slice and each axis name. -/
theorem C5_orientation_correction_witness :
    orientSlice "Axial" [[.fin 1, .fin 2, .fin 3], [.fin 4, .fin 5, .fin 6]]
      = rot90 (rot90 (rot90 [[.fin 1, .fin 2, .fin 3], [.fin 4, .fin 5, .fin 6]]))
    ∧ orientSlice "coronal" [[.fin 1, .fin 2, .fin 3], [.fin 4, .fin 5, .fin 6]]
      = rot90 [[.fin 1, .fin 2, .fin 3], [.fin 4, .fin 5, .fin 6]]
    ∧ mGet (orientSlice "axial" [[.fin 1, .fin 2, .fin 3], [.fin 4, .fin 5, .fin 6]]) 0 0
      = mGet [[.fin 1, .fin 2, .fin 3], [.fin 4, .fin 5, .fin 6]] 1 0
    ∧ mGet (orientSlice "sagittal" [[.fin 1, .fin 2, .fin 3], [.fin 4, .fin 5, .fin 6]]) 0 0
      = mGet [[.fin 1, .fin 2, .fin 3], [.fin 4, .fin 5, .fin 6]] 1 2 := by
  refine ⟨(C5_orientation_correction "Axial" _).1 (by decide),
    (C5_orientation_correction "coronal" _).2.1 (by decide),
    ((C5_orientation_correction "x" _).2.2.2 (by decide) (by decide) 0 0
      (by decide) (by decide)).1,
    ((C5_orientation_correction "x" _).2.2.2 (by decide) (by decide) 0 0
      (by decide) (by decide)).2.2 (by decide)⟩

/-- Rectangularity of a 3D array with the given shape. -/
def isRect3 (v : Vol3) (s0 s1 s2 : ℕ) : Bool :=
  v.length == s0 && v.all (fun plane =>
    plane.length == s1 && plane.all (fun row => row.length == s2))

theorem npGet_ok {α : Type} (xs : List α) (i : ℤ) (d : α) (h0 : 0 ≤ i)
    (h1 : i.toNat < xs.length) :
    npGet xs i = .ok (xs.getD i.toNat d) := by
  unfold npGet
  have hni : ¬ (i < 0) := by omega
  simp only [if_neg hni]
  rw [dif_pos ⟨h0, h1⟩]
  congr 1
  rw [List.getD_eq_getElem?_getD, List.getElem?_eq_getElem h1]
  rfl

theorem mapM_ok_of_forall {α β : Type} (f : α → Except String β) (g : α → β) (l : List α)
    (h : ∀ a ∈ l, f a = .ok (g a)) : l.mapM f = .ok (l.map g) := by
  induction l with
  | nil => rfl
  | cons x xs ih =>
    rw [List.mapM_cons, h x (by simp)]
    rw [ih (fun a ha => h a (by simp [ha]))]
    rfl

theorem npClipIdx_nonneg (i : ℤ) (s : ℕ) (hs : 0 < s) :
    0 ≤ npClipIdx i ((s : ℤ) - 1) ∧ npClipIdx i ((s : ℤ) - 1) < (s : ℤ) := by
  unfold npClipIdx
  omega

/-- C4: slice extraction lowercases the axis name and maps sagittal,
coronal and axial to array axes 0, 1 and 2 (axial being the
fall-through branch), clamping the integer index into [0, size - 1]
along the selected axis before extracting; consequently extraction
never fails on a volume with positive rectangular dimensions, and any
index at or beyond the axis bound yields the same slice as the
boundary index. -/
theorem C4_slice_axis_clamp (v : Vol3) (s0 s1 s2 : ℕ) (ax : String) (i : ℤ)
    (hrect : isRect3 v s0 s1 s2 = true) (h0 : 0 < s0) (h1 : 0 < s1) (h2 : 0 < s2) :
    (∀ s : ℕ, 0 < s → 0 ≤ npClipIdx i ((s : ℤ) - 1) ∧ npClipIdx i ((s : ℤ) - 1) < (s : ℤ))
    ∧ (pyStrLower ax = "sagittal" →
        sliceFromVolume v ax i = .ok (v.getD (npClipIdx i ((s0 : ℤ) - 1)).toNat []))
    ∧ (pyStrLower ax = "coronal" →
        sliceFromVolume v ax i
          = .ok (v.map (fun plane => plane.getD (npClipIdx i ((s1 : ℤ) - 1)).toNat [])))
    ∧ (pyStrLower ax ≠ "sagittal" → pyStrLower ax ≠ "coronal" →
        sliceFromVolume v ax i
          = .ok (v.map (fun plane => plane.map
              (fun row => row.getD (npClipIdx i ((s2 : ℤ) - 1)).toNat (.fin 0)))))
    ∧ ((if pyStrLower ax = "sagittal" then (s0 : ℤ)
        else if pyStrLower ax = "coronal" then (s1 : ℤ) else (s2 : ℤ)) ≤ i →
        sliceFromVolume v ax i
          = sliceFromVolume v ax ((if pyStrLower ax = "sagittal" then (s0 : ℤ)
              else if pyStrLower ax = "coronal" then (s1 : ℤ) else (s2 : ℤ)) - 1)) := by
  simp only [isRect3, Bool.and_eq_true, beq_iff_eq, List.all_eq_true] at hrect
  obtain ⟨hlen, hplanes⟩ := hrect
  have hsh1 : shape1 v = s1 := by
    unfold shape1
    have hv : v ≠ [] := by
      intro hv
      rw [hv] at hlen
      simp at hlen
      omega
    obtain ⟨p, ps, rfl⟩ : ∃ p ps, v = p :: ps := by
      cases v with
      | nil => exact absurd rfl hv
      | cons p ps => exact ⟨p, ps, rfl⟩
    exact (hplanes p (by simp)).1
  have hsh2 : shape2 v = s2 := by
    unfold shape2
    obtain ⟨p, ps, rfl⟩ : ∃ p ps, v = p :: ps := by
      cases v with
      | nil => simp at hlen; omega
      | cons p ps => exact ⟨p, ps, rfl⟩
    have hp := hplanes p (by simp)
    obtain ⟨r, rs, hpr⟩ : ∃ r rs, p = r :: rs := by
      cases p with
      | nil => simp at hp; omega
      | cons r rs => exact ⟨r, rs, rfl⟩
    simp only [hpr]
    exact (hp.2 r (by simp [hpr])).symm ▸ (hp.2 r (by simp [hpr]))
  refine ⟨fun s hs => npClipIdx_nonneg i s hs, fun hax => ?_, fun hax => ?_,
    fun hax1 hax2 => ?_, fun hbound => ?_⟩
  · have hcl := npClipIdx_nonneg i s0 h0
    unfold sliceFromVolume
    rw [hax, if_pos rfl, hlen]
    exact npGet_ok v _ [] hcl.1 (by omega)
  · have hcl := npClipIdx_nonneg i s1 h1
    unfold sliceFromVolume
    rw [hax]
    rw [if_neg (by decide), if_pos rfl, hsh1]
    exact mapM_ok_of_forall _ _ v (fun plane hp =>
      npGet_ok plane _ [] hcl.1 (by rw [(hplanes plane hp).1]; omega))
  · have hcl := npClipIdx_nonneg i s2 h2
    unfold sliceFromVolume
    rw [if_neg hax1, if_neg hax2, hsh2]
    exact mapM_ok_of_forall _ _ v (fun plane hp =>
      mapM_ok_of_forall _ _ plane (fun row hr =>
        npGet_ok row _ (.fin 0) hcl.1
          (by rw [(hplanes plane hp).2 row hr]; omega)))
  · unfold sliceFromVolume
    by_cases hax : pyStrLower ax = "sagittal"
    · rw [if_pos hax] at hbound
      rw [if_pos hax, if_pos hax]
      simp only [show npClipIdx i ((v.length : ℤ) - 1)
          = npClipIdx ((s0 : ℤ) - 1) ((v.length : ℤ) - 1) from by
        unfold npClipIdx; omega]
      simp only [hax, eq_self_iff_true, if_true]
    · by_cases hax2 : pyStrLower ax = "coronal"
      · rw [if_neg hax, if_pos hax2] at hbound
        rw [if_neg hax, if_pos hax2, if_neg hax, if_pos hax2]
        simp only [show npClipIdx i ((shape1 v : ℤ) - 1)
            = npClipIdx ((s1 : ℤ) - 1) ((shape1 v : ℤ) - 1) from by
          unfold npClipIdx; rw [hsh1]; omega]
        simp only [hax, hax2, eq_self_iff_true, if_true, if_false,
          if_neg (show ¬(("coronal" : String) = "sagittal") from by decide)]
      · rw [if_neg hax, if_neg hax2] at hbound
        rw [if_neg hax, if_neg hax2, if_neg hax, if_neg hax2]
        simp only [show npClipIdx i ((shape2 v : ℤ) - 1)
            = npClipIdx ((s2 : ℤ) - 1) ((shape2 v : ℤ) - 1) from by
          unfold npClipIdx; rw [hsh2]; omega]
        simp only [hax, hax2, if_false]

/-- Witness for C4 on a concrete 2 x 2 x 2 volume: an upper-case axis
name selects axis 0, and index 7, beyond every bound, produces the
boundary slice. -/
theorem C4_slice_axis_clamp_witness :
    sliceFromVolume
      [[[.fin 1, .fin 2], [.fin 3, .fin 4]], [[.fin 5, .fin 6], [.fin 7, .fin 8]]]
      "SAGITTAL" 7
      = .ok [[.fin 5, .fin 6], [.fin 7, .fin 8]]
    ∧ sliceFromVolume
      [[[.fin 1, .fin 2], [.fin 3, .fin 4]], [[.fin 5, .fin 6], [.fin 7, .fin 8]]]
      "axial" 7
      = sliceFromVolume
        [[[.fin 1, .fin 2], [.fin 3, .fin 4]], [[.fin 5, .fin 6], [.fin 7, .fin 8]]]
        "axial" 1 := by
  constructor
  · have h := (C4_slice_axis_clamp
      [[[.fin 1, .fin 2], [.fin 3, .fin 4]], [[.fin 5, .fin 6], [.fin 7, .fin 8]]]
      2 2 2 "SAGITTAL" 7 (by decide) (by decide) (by decide) (by decide)).2.1 (by decide)
    rw [h]
    decide
  · have h := (C4_slice_axis_clamp
      [[[.fin 1, .fin 2], [.fin 3, .fin 4]], [[.fin 5, .fin 6], [.fin 7, .fin 8]]]
      2 2 2 "axial" 7 (by decide) (by decide) (by decide) (by decide)).2.2.2.2 (by decide)
    simpa using h

theorem isPre_iff (l₁ l₂ : List String) :
    l₁.isPrefixOf l₂ = true ↔ ∃ rest, l₂ = l₁ ++ rest := by
  induction l₁ generalizing l₂ with
  | nil => simp [List.isPrefixOf]
  | cons x xs ih =>
    cases l₂ with
    | nil => simp [List.isPrefixOf]
    | cons y ys =>
      simp only [List.isPrefixOf, Bool.and_eq_true, beq_iff_eq, ih, List.cons_append,
        List.cons.injEq]
      constructor
      · rintro ⟨rfl, rest, rfl⟩
        exact ⟨rest, rfl, rfl⟩
      · rintro ⟨rest, rfl, rfl⟩
        exact ⟨rfl, rest, rfl⟩

/-- C2: any path _resolve_bids_path returns is a descendant of (or
equal to) the resolved root; every request either resolves or is
rejected with exactly HTTP 400; and against a sandboxed root (one that
is not the filesystem root and whose last component is not itself
named etc) the traversal path ../etc is always rejected with HTTP 400,
never resolved. -/
theorem C2_bids_path_sandbox (root : List String) (p : String) :
    (∀ t, resolveBidsPath root p = .ok t → ∃ rest, t = canon root ++ rest)
    ∧ ((∃ t, resolveBidsPath root p = .ok t)
        ∨ resolveBidsPath root p = .error (.http 400 "Invalid BIDS path."))
    ∧ (canon root ≠ [] → (canon root).getLast? ≠ some "etc" →
        resolveBidsPath root "../etc" = .error (.http 400 "Invalid BIDS path.")) := by
  refine ⟨?_, ?_, fun hne hlast => ?_⟩
  · intro t ht
    unfold resolveBidsPath at ht
    dsimp only at ht
    split at ht
    next h =>
      obtain rfl : _ = t := by injection ht
      obtain ⟨rest, hrest⟩ := (isPre_iff _ _).mp h
      exact ⟨rest, hrest⟩
    next h => simp at ht
  · unfold resolveBidsPath
    dsimp only
    split
    · exact Or.inl ⟨_, rfl⟩
    · exact Or.inr rfl
  · have hjoin : bidsTarget root "../etc" = (canon root).dropLast ++ ["etc"] := by
      unfold bidsTarget
      dsimp only
      rw [if_neg (by decide : ¬ (("../etc" : String) = ""))]
      rw [show isAbsPath "../etc" = false from by decide]
      simp only [Bool.false_eq_true, if_false]
      rw [show splitPath "../etc" = ["..", "etc"] from by decide]
      unfold canon
      rw [List.foldl_append]
      rfl
    unfold resolveBidsPath
    dsimp only
    rw [hjoin, if_neg]
    intro habs2
    obtain ⟨rest, hrest⟩ := (isPre_iff _ _).mp habs2
    have hlen := congrArg List.length hrest
    simp only [List.length_append, List.length_dropLast, List.length_singleton] at hlen
    have h0 : 0 < (canon root).length := List.length_pos.mpr hne
    have hrest0 : rest.length = 0 := by omega
    rw [List.length_eq_zero] at hrest0
    subst hrest0
    rw [List.append_nil] at hrest
    have : (canon root).getLast? = some "etc" := by
      rw [← hrest]
      simp
    exact hlast this

/-- Witness for C2: against the root /data/bids, the path ../etc is
rejected with HTTP 400, a good relative path resolves below the root,
and the resolved path is an extension of the root. -/
theorem C2_bids_path_sandbox_witness :
    resolveBidsPath ["data", "bids"] "../etc" = .error (.http 400 "Invalid BIDS path.")
    ∧ (∃ rest, ["data", "bids", "sub-01"] = canon ["data", "bids"] ++ rest) := by
  constructor
  · exact (C2_bids_path_sandbox ["data", "bids"] "../etc").2.2 (by decide) (by decide)
  · exact (C2_bids_path_sandbox ["data", "bids"] "sub-01").1 ["data", "bids", "sub-01"]
      (by decide)

/-- C9 counterexample: the filename archive.tar.gz ends neither in
.nii nor in .nii.gz, yet the upload gate of POST /api/volume accepts
it (only the final .gz piece is checked), contradicting the claim that
any other filename suffix is rejected with HTTP 400. -/
theorem C9_cex_tar_gz :
    uploadVolumeCheck "archive.tar.gz" = .ok ()
    ∧ strEndsWith (pyStrLower "archive.tar.gz") ".nii" = false
    ∧ strEndsWith (pyStrLower "archive.tar.gz") ".nii.gz" = false := by decide

/-- C9 amended: the upload gate accepts a multipart filename exactly
when it is nonempty and the lowercased final dot suffix of its last
path component is .nii or .gz (so any .gz archive passes the filename
gate, not only .nii.gz files); every rejection is HTTP 400 and happens
before the file content is read. -/
theorem C9_upload_suffix_gate (f : String) :
    (uploadVolumeCheck f = .ok ()
      ↔ f ≠ "" ∧ (pyStrLower (pathSuffix f) = ".nii" ∨ pyStrLower (pathSuffix f) = ".gz"))
    ∧ (uploadVolumeCheck f = .ok ()
        ∨ ∃ d, uploadVolumeCheck f = .error (.http 400 d)) := by
  unfold uploadVolumeCheck
  dsimp only
  by_cases h1 : f = ""
  · subst h1
    exact ⟨by simp, Or.inr ⟨"Missing filename.", rfl⟩⟩
  · rw [if_neg h1]
    by_cases h2 : pyStrLower (pathSuffix f) = ".nii" ∨ pyStrLower (pathSuffix f) = ".gz"
    · rw [if_pos h2]
      exact ⟨by simp [h1, h2], Or.inl rfl⟩
    · rw [if_neg h2]
      refine ⟨by simp [h1, h2], Or.inr ⟨_, rfl⟩⟩

/-- Witness for C9 amended: a well formed NIfTI filename passes the
gate. -/
theorem C9_upload_suffix_gate_witness : uploadVolumeCheck "brain.nii.gz" = .ok () :=
  (C9_upload_suffix_gate "brain.nii.gz").1.mpr ⟨by decide, by decide⟩

theorem bind_congr_r {ε α β : Type} (x : Except ε α) (f g : α → Except ε β)
    (h : ∀ a, x = .ok a → f a = g a) : x >>= f = x >>= g := by
  cases x with
  | error e => rfl
  | ok a => exact h a rfl

/-- C1: when the submitted transforms payload builds an empty
transform list, the preview returns the slice of the original, never
transformed volume, the pipeline argument and the seed are never
consulted, and the RNG states pass through unchanged. -/
theorem C1_empty_pipeline_noop
    (applyP : List TransformInstance → Vol3 → RNGState → Vol3 × RNGState)
    (store : List (String × Vol3)) (vid axisJ idxJ tp seedJ : JVal) (rng : RNGState)
    (h : buildTransformList tp = Except.ok []) :
    previewSlice applyP store vid axisJ idxJ tp seedJ rng
      = (do
          let volume ← fetchVolume store vid
          let idx ← liftExn (pyInt idxJ)
          let axisS ← liftExn (pyAsStr axisJ)
          let slice2d ← liftExn (sliceFromVolume volume axisS idx)
          pure (normalizeToUint8 (orientSlice axisS slice2d), rng)) := by
  unfold previewSlice
  rw [h]
  rfl

/-- Witness for C1: with one stored 1 x 2 x 2 volume, an empty
transforms payload and the seed 99, the preview renders the original
axial slice, the RNG states are untouched, and a pipeline argument
that would wreck both volume and states is never invoked. -/
theorem C1_empty_pipeline_noop_witness :
    previewSlice (fun _ _ _ => ([], ⟨0, 0, 0⟩))
      [("v1", [[[.fin 0, .fin 1], [.fin 2, .fin 3]]])]
      (.str "v1") (.str "axial") (.num 0) (JVal.objOf []) (.num 99) ⟨1, 2, 3⟩
      = .ok ([[0], [255]], ⟨1, 2, 3⟩) := by
  rw [C1_empty_pipeline_noop (fun _ _ _ => ([], ⟨0, 0, 0⟩))
    [("v1", [[[.fin 0, .fin 1], [.fin 2, .fin 3]]])]
    (.str "v1") (.str "axial") (.num 0) (JVal.objOf []) (.num 99) ⟨1, 2, 3⟩ (by decide)]
  decide

/-- C8 counterexample: a seed that does not parse as an integer is
silently discarded, not rejected: with one transform enabled and the
malformed seed abc the preview succeeds (HTTP 200 with an image), no
RNG is reseeded, and no HTTP 400 is raised. -/
theorem C8_cex_malformed_seed :
    pyInt (JVal.str "abc") = .error "ValueError: int"
    ∧ previewSlice (fun _ v r => (v, r)) [("v1", [[[.fin 0, .fin 1], [.fin 2, .fin 3]]])]
        (.str "v1") (.str "axial") (.num 0)
        (JVal.objOf [("flip", JVal.objOf [("enabled", .bool true)])])
        (.str "abc") ⟨1, 2, 3⟩
      = .ok ([[0], [255]], ⟨1, 2, 3⟩) := by decide

/-- C8 amended: a seed that fails int() is silently ignored (the
preview behaves exactly as if no seed had been sent, with no error and
no reseeding); a seed that parses to an integer n in numpy's accepted
range, with at least one transform enabled, reseeds all three RNGs
(random, numpy, torch) to the state determined by n immediately before
the pipeline is composed and applied, so the run equals an unseeded
run started from the seeded states. -/
theorem C8_seed_handling
    (applyP : List TransformInstance → Vol3 → RNGState → Vol3 × RNGState)
    (store : List (String × Vol3)) (vid axisJ idxJ tp seedJ : JVal) (rng : RNGState) :
    (∀ e, pyInt seedJ = .error e →
      previewSlice applyP store vid axisJ idxJ tp seedJ rng
        = previewSlice applyP store vid axisJ idxJ tp .null rng)
    ∧ (∀ n t ts, pyInt seedJ = .ok n → buildTransformList tp = .ok (t :: ts) →
        0 ≤ n → n < 2 ^ 32 →
        previewSlice applyP store vid axisJ idxJ tp seedJ rng
          = previewSlice applyP store vid axisJ idxJ tp .null ⟨n, n, n⟩) := by
  constructor
  · intro e he
    unfold previewSlice
    apply bind_congr_r
    intro volume _
    apply bind_congr_r
    intro tl _
    by_cases htl : tl.isEmpty
    · rw [if_pos htl, if_pos htl]
    · rw [if_neg htl, if_neg htl]
      by_cases hnull : seedJ = JVal.null
      · rw [hnull]
      · rw [if_neg hnull, he, if_pos rfl]
  · intro n t ts hn hlist h0 h32
    have hnn : seedJ ≠ JVal.null := by
      intro hcon
      rw [hcon] at hn
      exact Except.noConfusion hn
    unfold previewSlice
    apply bind_congr_r
    intro volume _
    apply bind_congr_r
    intro tl htl
    have htl' : tl = t :: ts := by
      rw [hlist] at htl
      injection htl with h'
      exact h'.symm
    subst htl'
    have hne : ((t :: ts).isEmpty) = false := rfl
    rw [hne]
    simp only [Bool.false_eq_true, if_false, if_neg hnn, hn, if_pos rfl]
    unfold applySeed
    rw [if_pos ⟨h0, h32⟩]
    rfl

/-- Witness for C8: the malformed seed abc behaves as no seed at all,
and the integer seed 5 with a flip transform enabled equals an
unseeded run started from all three states at 5. -/
theorem C8_seed_handling_witness :
    previewSlice (fun _ v r => (v, r)) [("v1", [[[.fin 0, .fin 1], [.fin 2, .fin 3]]])]
      (.str "v1") (.str "axial") (.num 0)
      (JVal.objOf [("flip", JVal.objOf [("enabled", .bool true)])]) (.str "abc") ⟨1, 2, 3⟩
      = previewSlice (fun _ v r => (v, r)) [("v1", [[[.fin 0, .fin 1], [.fin 2, .fin 3]]])]
        (.str "v1") (.str "axial") (.num 0)
        (JVal.objOf [("flip", JVal.objOf [("enabled", .bool true)])]) .null ⟨1, 2, 3⟩
    ∧ previewSlice (fun _ v r => (v, r)) [("v1", [[[.fin 0, .fin 1], [.fin 2, .fin 3]]])]
      (.str "v1") (.str "axial") (.num 0)
      (JVal.objOf [("flip", JVal.objOf [("enabled", .bool true)])]) (.num 5) ⟨1, 2, 3⟩
      = previewSlice (fun _ v r => (v, r)) [("v1", [[[.fin 0, .fin 1], [.fin 2, .fin 3]]])]
        (.str "v1") (.str "axial") (.num 0)
        (JVal.objOf [("flip", JVal.objOf [("enabled", .bool true)])]) .null ⟨5, 5, 5⟩ := by
  constructor
  · exact (C8_seed_handling (fun _ v r => (v, r))
      [("v1", [[[.fin 0, .fin 1], [.fin 2, .fin 3]]])] (.str "v1") (.str "axial") (.num 0)
      (JVal.objOf [("flip", JVal.objOf [("enabled", .bool true)])]) (.str "abc")
      ⟨1, 2, 3⟩).1 "ValueError: int" (by decide)
  · exact (C8_seed_handling (fun _ v r => (v, r))
      [("v1", [[[.fin 0, .fin 1], [.fin 2, .fin 3]]])] (.str "v1") (.str "axial") (.num 0)
      (JVal.objOf [("flip", JVal.objOf [("enabled", .bool true)])]) (.num 5)
      ⟨1, 2, 3⟩).2 5 ⟨"RandomFlip", [("axes", JVal.arrOf [.str "lr"]), ("p", .num (mkRat 1 2))]⟩
      [] (by decide) (by decide) (by decide) (by decide)

theorem foldl_min_le_init (l : List ℚ) (x : ℚ) : l.foldl min x ≤ x := by
  induction l generalizing x with
  | nil => simp
  | cons y ys ih =>
    simp only [List.foldl_cons]
    exact le_trans (ih (min x y)) (min_le_left x y)

theorem foldl_min_mem (l : List ℚ) (x : ℚ) : l.foldl min x ∈ x :: l := by
  induction l generalizing x with
  | nil => simp
  | cons y ys ih =>
    simp only [List.foldl_cons]
    rcases List.mem_cons.mp (ih (min x y)) with h1 | h1
    · rcases min_choice x y with hm | hm
      · rw [hm] at h1 ⊢
        rw [h1]
        exact List.mem_cons_self _ _
      · rw [hm] at h1 ⊢
        rw [h1]
        exact List.mem_cons_of_mem _ (List.mem_cons_self _ _)
    · exact List.mem_cons_of_mem _ (List.mem_cons_of_mem _ h1)

theorem foldl_min_le (l : List ℚ) (x z : ℚ) (hz : z ∈ x :: l) : l.foldl min x ≤ z := by
  induction l generalizing x with
  | nil =>
    simp at hz
    simp [hz]
  | cons y ys ih =>
    simp only [List.foldl_cons]
    rcases List.mem_cons.mp hz with rfl | hz' 
    · exact le_trans (foldl_min_le_init ys (min z y)) (min_le_left z y)
    · rcases List.mem_cons.mp hz' with rfl | hz2
      · exact le_trans (foldl_min_le_init ys (min x z)) (min_le_right x z)
      · exact ih (min x y) (List.mem_cons_of_mem _ hz2)

theorem foldl_max_init_le (l : List ℚ) (x : ℚ) : x ≤ l.foldl max x := by
  induction l generalizing x with
  | nil => simp
  | cons y ys ih =>
    simp only [List.foldl_cons]
    exact le_trans (le_max_left x y) (ih (max x y))

theorem foldl_max_mem (l : List ℚ) (x : ℚ) : l.foldl max x ∈ x :: l := by
  induction l generalizing x with
  | nil => simp
  | cons y ys ih =>
    simp only [List.foldl_cons]
    rcases List.mem_cons.mp (ih (max x y)) with h1 | h1
    · rcases max_choice x y with hm | hm
      · rw [hm] at h1 ⊢
        rw [h1]
        exact List.mem_cons_self _ _
      · rw [hm] at h1 ⊢
        rw [h1]
        exact List.mem_cons_of_mem _ (List.mem_cons_self _ _)
    · exact List.mem_cons_of_mem _ (List.mem_cons_of_mem _ h1)

theorem foldl_le_max (l : List ℚ) (x z : ℚ) (hz : z ∈ x :: l) : z ≤ l.foldl max x := by
  induction l generalizing x with
  | nil =>
    simp at hz
    simp [hz]
  | cons y ys ih =>
    simp only [List.foldl_cons]
    rcases List.mem_cons.mp hz with rfl | hz' 
    · exact le_trans (le_max_left z y) (foldl_max_init_le ys (max z y))
    · rcases List.mem_cons.mp hz' with rfl | hz2
      · exact le_trans (le_max_right x z) (foldl_max_init_le ys (max x z))
      · exact ih (max x y) (List.mem_cons_of_mem _ hz2)

theorem listMin_spec (l : List ℚ) (h : l ≠ []) :
    listMin l ∈ l ∧ ∀ y ∈ l, listMin l ≤ y := by
  cases l with
  | nil => exact absurd rfl h
  | cons x xs =>
    exact ⟨foldl_min_mem xs x, fun y hy => foldl_min_le xs x y hy⟩

theorem listMax_spec (l : List ℚ) (h : l ≠ []) :
    listMax l ∈ l ∧ ∀ y ∈ l, y ≤ listMax l := by
  cases l with
  | nil => exact absurd rfl h
  | cons x xs =>
    exact ⟨foldl_max_mem xs x, fun y hy => foldl_le_max xs x y hy⟩

/-- Entry lookup in a nested list, where out-of-range indices answer
none. -/
def getEntry2 {α : Type} (a : List (List α)) (i j : ℕ) : Option α :=
  match a[i]? with
  | some row => row[j]?
  | none => none

theorem getEntry2_map {α β : Type} (f : α → β) (a : List (List α)) (i j : ℕ) :
    getEntry2 (a.map (fun row => row.map f)) i j = (getEntry2 a i j).map f := by
  unfold getEntry2
  rw [List.getElem?_map]
  cases h : a[i]? with
  | none => rfl
  | some row => simp [List.getElem?_map]

theorem getEntry2_mem {α : Type} (a : List (List α)) (i j : ℕ) (x : α)
    (h : getEntry2 a i j = some x) : x ∈ a.flatten := by
  unfold getEntry2 at h
  cases hr : a[i]? with
  | none => rw [hr] at h; exact Option.noConfusion h
  | some row =>
    rw [hr] at h
    exact List.mem_flatten.mpr ⟨row, List.getElem?_mem hr, List.getElem?_mem h⟩

theorem mem_finiteVals (a : Mat) (i j : ℕ) (q : ℚ)
    (h : getEntry2 a i j = some (.fin q)) : q ∈ finiteVals a := by
  unfold finiteVals
  exact List.mem_filterMap.mpr ⟨.fin q, getEntry2_mem a i j _ h, rfl⟩

theorem ratTrunc_eq_floor (v : ℚ) (h : 0 ≤ v) : ratTrunc v = ⌊v⌋ := by
  unfold ratTrunc
  rw [Rat.floor_def]
  exact Int.tdiv_eq_ediv (Rat.num_nonneg.mpr h) (by positivity)

/-- C3: the zero raster has the shape of its input; an input with no
finite entry normalizes to the all-zero raster; given the minimum vmin
and maximum vmax of the finite entries, a non-positive range also
yields the all-zero raster, and otherwise each finite entry q maps to
the 8-bit value obtained by linearly rescaling into [0, 255] and
truncating (which never exceeds 255), while positive infinity
saturates at 255 and negative infinity and NaN map to 0. -/
theorem C3_normalize_to_uint8 (a : Mat) :
    (∀ i j, getEntry2 (zerosLike a) i j = (getEntry2 a i j).map (fun _ => 0))
    ∧ (finiteVals a = [] → normalizeToUint8 a = zerosLike a)
    ∧ (∀ vmin vmax : ℚ,
        vmin ∈ finiteVals a → (∀ y ∈ finiteVals a, vmin ≤ y) →
        vmax ∈ finiteVals a → (∀ y ∈ finiteVals a, y ≤ vmax) →
        (vmax ≤ vmin → normalizeToUint8 a = zerosLike a)
        ∧ (vmin < vmax → ∀ i j x, getEntry2 a i j = some x →
            (∀ q, x = .fin q →
              getEntry2 (normalizeToUint8 a) i j
                = some (⌊255 * (q - vmin) / (vmax - vmin)⌋.toNat)
              ∧ ⌊255 * (q - vmin) / (vmax - vmin)⌋.toNat ≤ 255)
            ∧ (x = .pinf → getEntry2 (normalizeToUint8 a) i j = some 255)
            ∧ (x = .ninf → getEntry2 (normalizeToUint8 a) i j = some 0)
            ∧ (x = .nan → getEntry2 (normalizeToUint8 a) i j = some 0))) := by
  refine ⟨fun i j => getEntry2_map _ a i j, fun hF => ?_,
    fun vmin vmax hminMem hminLe hmaxMem hmaxLe => ?_⟩
  · unfold normalizeToUint8
    rw [hF]
    rfl
  · have hFne : finiteVals a ≠ [] := by
      intro hcon
      rw [hcon] at hminMem
      exact absurd hminMem (List.not_mem_nil _)
    have hminEq : listMin (finiteVals a) = vmin :=
      le_antisymm ((listMin_spec _ hFne).2 _ hminMem) (hminLe _ (listMin_spec _ hFne).1)
    have hmaxEq : listMax (finiteVals a) = vmax :=
      le_antisymm (hmaxLe _ (listMax_spec _ hFne).1) ((listMax_spec _ hFne).2 _ hmaxMem)
    have hEmpty : ¬ ((finiteVals a).isEmpty = true) := by
      simp [List.isEmpty_iff, hFne]
    constructor
    · intro hle
      unfold normalizeToUint8
      rw [if_neg hEmpty, if_pos (by rw [hminEq, hmaxEq]; exact hle)]
    · intro hlt i j x hx
      have hmain : normalizeToUint8 a = a.map (fun row => row.map (fun y =>
          castU8 (pmulQ (pclip01 (pdivQ (psubQ y vmin) (qSub vmax vmin))) 255))) := by
        unfold normalizeToUint8
        rw [if_neg hEmpty, if_neg (by rw [hminEq, hmaxEq]; exact not_le.mpr hlt),
          hminEq, hmaxEq]
      have hden : (0 : ℚ) < vmax - vmin := sub_pos.mpr hlt
      have hdneg : ¬ (qSub vmax vmin < 0) := by
        rw [qSub_eq]
        exact not_lt.mpr (le_of_lt hden)
      refine ⟨fun q hq => ?_, fun hq => ?_, fun hq => ?_, fun hq => ?_⟩
      · subst hq
        have hq_mem : q ∈ finiteVals a := mem_finiteVals a i j q hx
        have h1 : vmin ≤ q := hminLe q hq_mem
        have h2 : q ≤ vmax := hmaxLe q hq_mem
        have hs0 : 0 ≤ (q - vmin) / (vmax - vmin) :=
          div_nonneg (by linarith) (le_of_lt hden)
        have hs1 : (q - vmin) / (vmax - vmin) ≤ 1 :=
          (div_le_one hden).mpr (by linarith)
        have hchain : pmulQ (pclip01 (pdivQ (psubQ (.fin q) vmin) (qSub vmax vmin))) 255
            = .fin (255 * (q - vmin) / (vmax - vmin)) := by
          show pmulQ (pclip01 (.fin (qDiv (qSub q vmin) (qSub vmax vmin)))) 255 = _
          rw [qSub_eq, qSub_eq, qDiv_eq]
          show pmulQ (.fin (min 1 (max 0 ((q - vmin) / (vmax - vmin))))) 255 = _
          rw [max_eq_right hs0, min_eq_right hs1]
          show PFloat.fin (qMul ((q - vmin) / (vmax - vmin)) 255) = _
          rw [qMul_eq]
          congr 1
          ring
        have hv0 : 0 ≤ 255 * (q - vmin) / (vmax - vmin) :=
          div_nonneg (mul_nonneg (by norm_num) (by linarith)) (le_of_lt hden)
        have hv255 : 255 * (q - vmin) / (vmax - vmin) ≤ 255 := by
          rw [div_le_iff₀ hden]
          nlinarith
        have hfl0 : 0 ≤ ⌊255 * (q - vmin) / (vmax - vmin)⌋ := Int.floor_nonneg.mpr hv0
        have hfl255 : ⌊255 * (q - vmin) / (vmax - vmin)⌋ ≤ 255 := by
          have h255 : (⌊(255 : ℚ)⌋ : ℤ) = 255 := by norm_num
          have := Int.floor_le_floor hv255
          omega
        constructor
        · rw [hmain, getEntry2_map, hx]
          simp only [Option.map_some']
          congr 1
          rw [hchain]
          show ((ratTrunc (255 * (q - vmin) / (vmax - vmin))).emod 256).toNat = _
          rw [ratTrunc_eq_floor _ hv0]
          show (⌊255 * (q - vmin) / (vmax - vmin)⌋ % 256).toNat = _
          omega
        · omega
      · subst hq
        rw [hmain, getEntry2_map, hx]
        simp only [Option.map_some']
        congr 1
        show castU8 (pmulQ (pclip01
          (if qSub vmax vmin < 0 then PFloat.ninf else PFloat.pinf)) 255) = 255
        rw [if_neg hdneg]
        decide
      · subst hq
        rw [hmain, getEntry2_map, hx]
        simp only [Option.map_some']
        congr 1
        show castU8 (pmulQ (pclip01
          (if qSub vmax vmin < 0 then PFloat.pinf else PFloat.ninf)) 255) = 0
        rw [if_neg hdneg]
        decide
      · subst hq
        rw [hmain, getEntry2_map, hx]
        simp only [Option.map_some']
        rfl

/-- Witness for C3 on the concrete array [[NaN, +Inf, 1], [-Inf, 3, 2]]
with vmin = 1 and vmax = 3: the finite entry 2 maps to 127, infinities
saturate to 255 and 0, NaN maps to 0. -/
theorem C3_normalize_to_uint8_witness :
    getEntry2 (normalizeToUint8 [[.nan, .pinf, .fin 1], [.ninf, .fin 3, .fin 2]]) 1 2
      = some (⌊255 * ((2 : ℚ) - 1) / ((3 : ℚ) - 1)⌋.toNat)
    ∧ getEntry2 (normalizeToUint8 [[.nan, .pinf, .fin 1], [.ninf, .fin 3, .fin 2]]) 0 1
      = some 255
    ∧ getEntry2 (normalizeToUint8 [[.nan, .pinf, .fin 1], [.ninf, .fin 3, .fin 2]]) 0 0
      = some 0 := by
  have h := (C3_normalize_to_uint8 [[.nan, .pinf, .fin 1], [.ninf, .fin 3, .fin 2]]).2.2
    1 3 (by decide) (by decide) (by decide) (by decide)
  refine ⟨((h.2 (by norm_num) 1 2 (.fin 2) (by decide)).1 2 rfl).1, ?_, ?_⟩
  · exact (h.2 (by norm_num) 0 1 .pinf (by decide)).2.1 rfl
  · exact (h.2 (by norm_num) 0 0 .nan (by decide)).2.2.2 rfl

/-- Elementwise multiplication of one value by the scalar k (the array
expression k * array of the claim).  Finite entries multiply exactly;
an infinity keeps or swaps its sign with the sign of k (becoming NaN
for k = 0) and NaN propagates, as IEEE arithmetic prescribes. -/
def pscale (k : ℚ) : PFloat → PFloat
  | .fin q => .fin (qMul k q)
  | .pinf => if k < 0 then .ninf else if 0 < k then .pinf else .nan
  | .ninf => if k < 0 then .pinf else if 0 < k then .ninf else .nan
  | .nan => .nan

/-- The array k * a. -/
def scaleMat (k : ℚ) (a : Mat) : Mat := a.map (fun row => row.map (pscale k))

theorem mul_min_q (k a b : ℚ) (hk : 0 ≤ k) : k * min a b = min (k * a) (k * b) := by
  rcases le_total a b with h | h
  · rw [min_eq_left h, min_eq_left (mul_le_mul_of_nonneg_left h hk)]
  · rw [min_eq_right h, min_eq_right (mul_le_mul_of_nonneg_left h hk)]

theorem mul_max_q (k a b : ℚ) (hk : 0 ≤ k) : k * max a b = max (k * a) (k * b) := by
  rcases le_total a b with h | h
  · rw [max_eq_right h, max_eq_right (mul_le_mul_of_nonneg_left h hk)]
  · rw [max_eq_left h, max_eq_left (mul_le_mul_of_nonneg_left h hk)]

theorem finiteVals_scale (k : ℚ) (a : Mat) :
    finiteVals (scaleMat k a) = (finiteVals a).map (fun q => k * q) := by
  unfold finiteVals scaleMat
  rw [← List.map_flatten, List.filterMap_map, List.map_filterMap]
  apply List.filterMap_congr
  intro x _
  cases x with
  | fin q => simp [Function.comp, pscale, qMul_eq]
  | pinf =>
    simp only [Function.comp, pscale]
    split_ifs <;> rfl
  | ninf =>
    simp only [Function.comp, pscale]
    split_ifs <;> rfl
  | nan => rfl

theorem foldl_min_map_mul (k : ℚ) (hk : 0 ≤ k) (l : List ℚ) (x : ℚ) :
    (l.map (fun q => k * q)).foldl min (k * x) = k * l.foldl min x := by
  induction l generalizing x with
  | nil => rfl
  | cons y ys ih =>
    simp only [List.map_cons, List.foldl_cons]
    rw [← mul_min_q k x y hk, ih]

theorem foldl_max_map_mul (k : ℚ) (hk : 0 ≤ k) (l : List ℚ) (x : ℚ) :
    (l.map (fun q => k * q)).foldl max (k * x) = k * l.foldl max x := by
  induction l generalizing x with
  | nil => rfl
  | cons y ys ih =>
    simp only [List.map_cons, List.foldl_cons]
    rw [← mul_max_q k x y hk, ih]

theorem listMin_map_mul (k : ℚ) (hk : 0 ≤ k) (l : List ℚ) :
    listMin (l.map (fun q => k * q)) = k * listMin l := by
  cases l with
  | nil => simp [listMin]
  | cons x xs =>
    simp only [List.map_cons, listMin]
    exact foldl_min_map_mul k hk xs x

theorem listMax_map_mul (k : ℚ) (hk : 0 ≤ k) (l : List ℚ) :
    listMax (l.map (fun q => k * q)) = k * listMax l := by
  cases l with
  | nil => simp [listMax]
  | cons x xs =>
    simp only [List.map_cons, listMax]
    exact foldl_max_map_mul k hk xs x

theorem map2_congr {α β : Type} (a : List (List α)) (f g : α → β)
    (h : ∀ x ∈ a.flatten, f x = g x) :
    a.map (fun row => row.map f) = a.map (fun row => row.map g) := by
  apply List.map_congr_left
  intro row hrow
  apply List.map_congr_left
  intro x hx
  exact h x (List.mem_flatten.mpr ⟨row, hrow, hx⟩)

theorem fin_mem_finiteVals (a : Mat) (q : ℚ) (h : PFloat.fin q ∈ a.flatten) :
    q ∈ finiteVals a := by
  unfold finiteVals
  exact List.mem_filterMap.mpr ⟨.fin q, h, rfl⟩

/-- C6: for a fully finite, non-constant 2D array and any scalar
k > 0, normalizing k * a produces the identical 8-bit raster as
normalizing a. -/
theorem C6_scale_invariance (a : Mat) (k : ℚ) (hk : 0 < k)
    (hfin : ∀ x ∈ a.flatten, x.isFin = true)
    (hnc : ∃ x ∈ a.flatten, ∃ y ∈ a.flatten, x ≠ y) :
    normalizeToUint8 (scaleMat k a) = normalizeToUint8 a := by
  obtain ⟨x, hx, y, hy, hxy⟩ := hnc
  obtain ⟨q1, rfl⟩ : ∃ q, x = PFloat.fin q := by
    have := hfin x hx
    cases x with
    | fin q => exact ⟨q, rfl⟩
    | pinf => exact absurd this (by simp [PFloat.isFin])
    | ninf => exact absurd this (by simp [PFloat.isFin])
    | nan => exact absurd this (by simp [PFloat.isFin])
  obtain ⟨q2, rfl⟩ : ∃ q, y = PFloat.fin q := by
    have := hfin y hy
    cases y with
    | fin q => exact ⟨q, rfl⟩
    | pinf => exact absurd this (by simp [PFloat.isFin])
    | ninf => exact absurd this (by simp [PFloat.isFin])
    | nan => exact absurd this (by simp [PFloat.isFin])
  have hq1 : q1 ∈ finiteVals a := fin_mem_finiteVals a q1 hx
  have hq2 : q2 ∈ finiteVals a := fin_mem_finiteVals a q2 hy
  have hne : q1 ≠ q2 := fun h => hxy (by rw [h])
  have hFne : finiteVals a ≠ [] := by
    intro h
    rw [h] at hq1
    exact List.not_mem_nil _ hq1
  have hmin := listMin_spec (finiteVals a) hFne
  have hmax := listMax_spec (finiteVals a) hFne
  have hlt : listMin (finiteVals a) < listMax (finiteVals a) := by
    rcases lt_or_le (listMin (finiteVals a)) (listMax (finiteVals a)) with h | h
    · exact h
    · exfalso
      apply hne
      have e1 : q1 = listMin (finiteVals a) :=
        le_antisymm (le_trans (hmax.2 q1 hq1) h) (hmin.2 q1 hq1)
      have e2 : q2 = listMin (finiteVals a) :=
        le_antisymm (le_trans (hmax.2 q2 hq2) h) (hmin.2 q2 hq2)
      rw [e1, e2]
  have hEmptyA : ¬ ((finiteVals a).isEmpty = true) := by
    simp [List.isEmpty_iff, hFne]
  have hFs : finiteVals (scaleMat k a) = (finiteVals a).map (fun q => k * q) :=
    finiteVals_scale k a
  have hFsne : ¬ ((finiteVals (scaleMat k a)).isEmpty = true) := by
    rw [hFs]
    simp [List.isEmpty_iff, hFne]
  have hmins : listMin (finiteVals (scaleMat k a)) = k * listMin (finiteVals a) := by
    rw [hFs]
    exact listMin_map_mul k (le_of_lt hk) _
  have hmaxs : listMax (finiteVals (scaleMat k a)) = k * listMax (finiteVals a) := by
    rw [hFs]
    exact listMax_map_mul k (le_of_lt hk) _
  have hlts : k * listMin (finiteVals a) < k * listMax (finiteVals a) :=
    (mul_lt_mul_left hk).mpr hlt
  have hmainA : normalizeToUint8 a = a.map (fun row => row.map (fun z =>
      castU8 (pmulQ (pclip01 (pdivQ (psubQ z (listMin (finiteVals a)))
        (qSub (listMax (finiteVals a)) (listMin (finiteVals a))))) 255))) := by
    unfold normalizeToUint8
    rw [if_neg hEmptyA, if_neg (not_le.mpr hlt)]
  have hmainS : normalizeToUint8 (scaleMat k a) = (scaleMat k a).map (fun row => row.map (fun z =>
      castU8 (pmulQ (pclip01 (pdivQ (psubQ z (k * listMin (finiteVals a)))
        (qSub (k * listMax (finiteVals a)) (k * listMin (finiteVals a))))) 255))) := by
    unfold normalizeToUint8
    rw [if_neg hFsne, hmins, hmaxs, if_neg (not_le.mpr hlts)]
  rw [hmainA, hmainS]
  unfold scaleMat
  simp only [List.map_map, Function.comp_def]
  apply map2_congr
  intro z hz
  obtain ⟨q, rfl⟩ : ∃ q, z = PFloat.fin q := by
    have := hfin z hz
    cases z with
    | fin q => exact ⟨q, rfl⟩
    | pinf => exact absurd this (by simp [PFloat.isFin])
    | ninf => exact absurd this (by simp [PFloat.isFin])
    | nan => exact absurd this (by simp [PFloat.isFin])
  have harg : qDiv (qSub (qMul k q) (k * listMin (finiteVals a)))
      (qSub (k * listMax (finiteVals a)) (k * listMin (finiteVals a)))
      = qDiv (qSub q (listMin (finiteVals a)))
        (qSub (listMax (finiteVals a)) (listMin (finiteVals a))) := by
    rw [qDiv_eq, qDiv_eq, qSub_eq, qSub_eq, qSub_eq, qSub_eq, qMul_eq]
    rw [show k * q - k * listMin (finiteVals a)
        = k * (q - listMin (finiteVals a)) from by ring,
      show k * listMax (finiteVals a) - k * listMin (finiteVals a)
        = k * (listMax (finiteVals a) - listMin (finiteVals a)) from by ring]
    rw [mul_div_mul_left _ _ (ne_of_gt hk)]
  show castU8 (pmulQ (pclip01 (qDiv (qSub (qMul k q) (k * listMin (finiteVals a)))
      (qSub (k * listMax (finiteVals a)) (k * listMin (finiteVals a))) |> PFloat.fin)) 255)
    = _
  rw [harg]
  rfl

/-- Witness for C6: scaling the non-constant finite array
[[0, 1], [2, 3]] by k = 3 leaves the normalized raster unchanged. -/
theorem C6_scale_invariance_witness :
    normalizeToUint8 (scaleMat 3 [[.fin 0, .fin 1], [.fin 2, .fin 3]])
      = normalizeToUint8 [[.fin 0, .fin 1], [.fin 2, .fin 3]] :=
  C6_scale_invariance [[.fin 0, .fin 1], [.fin 2, .fin 3]] 3 (by decide)
    (by decide) ⟨.fin 0, by decide, .fin 1, by decide, by decide⟩

theorem exceptIsOk_exists {ε α : Type} (e : Except ε α) (h : e.isOk = true) :
    ∃ r, e = .ok r := by
  cases e with
  | ok a => exact ⟨a, rfl⟩
  | error e => simp [Except.isOk, Except.toBool] at h

theorem exc_ok_bind {ε α β : Type} (a : α) (f : α → Except ε β) :
    (Except.ok a >>= f) = f a := rfl

theorem isDict_obj (v : JVal) (h : isDict v = true) : ∃ fs, v = .obj fs := by
  cases v with
  | obj fs => exact ⟨fs, rfl⟩
  | null => simp [isDict] at h
  | bool b => simp [isDict] at h
  | num q => simp [isDict] at h
  | str s => simp [isDict] at h
  | arr xs => simp [isDict] at h

theorem pyGetD_obj (fs : JFields) (k : String) (d : JVal) :
    pyGetD (JVal.obj fs) k d = .ok (dictGetD (JVal.obj fs) k d) := rfl

/-- Whether the flip entry, if enabled, carries a float-coercible
probability (the one coercion the spatial config pass performs). -/
def flipFloatOk (tp : JVal) : Bool :=
  match pyGetKey tp (.str "flip") with
  | .error _ => false
  | .ok payload =>
    if !(isDict payload) || !(pyTruthy (dictGetD payload "enabled" .null)) then true
    else (pyFloat (dictGetD payload "p" (.num (mkRat 1 2)))).isOk

/-- Whether the noise entry, if enabled, carries float-coercible mean
and std values (the two coercions the intensity config pass
performs). -/
def noiseFloatsOk (intensity : JVal) : Bool :=
  match pyGetKey intensity (.str "noise") with
  | .error _ => false
  | .ok payload =>
    if !(isDict payload) || !(pyTruthy (dictGetD payload "enabled" .null)) then true
    else (pyFloat (dictGetD payload "mean" (.num 0))).isOk
      && (pyFloat (dictGetD payload "std" (.num (mkRat 1 10)))).isOk

/-- Whether a value iterates without error into hashable keys only. -/
def iterKeysOk (v : JVal) : Bool :=
  match pyIter v with
  | .error _ => false
  | .ok ks => ks.all hashableKey

/-- The payload shapes on which the builders cannot raise: the payload
is a mapping, its order entry (if present) is a mapping whose spatial
and intensity orders (if present) iterate into hashable keys, its
intensity entry (if present) is a mapping, and the float-coerced
fields (flip probability, noise mean and std) coerce when their
entries are enabled. -/
def wellFormedPayload (tp : JVal) : Bool :=
  isDict tp
  && isDict (dictGetD tp "order" (JVal.objOf []))
  && iterKeysOk (dictGetD (dictGetD tp "order" (JVal.objOf [])) "spatial" defaultSpatialOrder)
  && iterKeysOk (dictGetD (dictGetD tp "order" (JVal.objOf [])) "intensity" defaultIntensityOrder)
  && isDict (dictGetD tp "intensity" (JVal.objOf []))
  && flipFloatOk tp
  && noiseFloatsOk (dictGetD tp "intensity" (JVal.objOf []))

theorem iterKeysOk_exists (v : JVal) (h : iterKeysOk v = true) :
    ∃ ks, pyIter v = .ok ks ∧ ∀ k ∈ ks, hashableKey k = true := by
  unfold iterKeysOk at h
  cases hv : pyIter v with
  | error e =>
    rw [hv] at h
    exact absurd h (by simp)
  | ok ks =>
    rw [hv] at h
    exact ⟨ks, rfl, by simpa [List.all_eq_true] using h⟩

theorem spatialConfigStep_ok (fs : JFields) (k : JVal)
    (hk : hashableKey k = true) (hflip : flipFloatOk (JVal.obj fs) = true) :
    ∃ r, spatialConfigStep (JVal.obj fs) k = .ok r := by
  cases k with
  | arr xs => simp [hashableKey] at hk
  | obj o => simp [hashableKey] at hk
  | null => exact ⟨none, rfl⟩
  | bool b => exact ⟨none, rfl⟩
  | num q => exact ⟨none, rfl⟩
  | str s =>
    simp only [spatialConfigStep, pyGetKey]
    by_cases hguard : (!(isDict ((jLookup fs.toList s).getD JVal.null))
        || !(pyTruthy (dictGetD ((jLookup fs.toList s).getD JVal.null) "enabled" JVal.null))) = true
    · rw [if_pos hguard]
      exact ⟨none, rfl⟩
    · rw [if_neg hguard]
      by_cases hs : s = "flip"
      · subst hs
        unfold flipFloatOk at hflip
        simp only [pyGetKey] at hflip
        rw [if_neg hguard] at hflip
        obtain ⟨p, hp⟩ := exceptIsOk_exists _ hflip
        rw [if_pos rfl, hp]
        exact ⟨_, rfl⟩
      · rw [if_neg (show ¬ (JVal.str s = JVal.str "flip") from by simp [hs])]
        apply exceptIsOk_exists
        split_ifs <;> rfl

theorem intensityConfigStep_ok (fs : JFields) (k : JVal)
    (hk : hashableKey k = true) (hnoise : noiseFloatsOk (JVal.obj fs) = true) :
    ∃ r, intensityConfigStep (JVal.obj fs) k = .ok r := by
  cases k with
  | arr xs => simp [hashableKey] at hk
  | obj o => simp [hashableKey] at hk
  | null => exact ⟨none, rfl⟩
  | bool b => exact ⟨none, rfl⟩
  | num q => exact ⟨none, rfl⟩
  | str s =>
    simp only [intensityConfigStep, pyGetKey]
    by_cases hguard : (!(isDict ((jLookup fs.toList s).getD JVal.null))
        || !(pyTruthy (dictGetD ((jLookup fs.toList s).getD JVal.null) "enabled" JVal.null))) = true
    · rw [if_pos hguard]
      exact ⟨none, rfl⟩
    · rw [if_neg hguard]
      by_cases hs : s = "noise"
      · subst hs
        unfold noiseFloatsOk at hnoise
        simp only [pyGetKey] at hnoise
        rw [if_neg hguard] at hnoise
        rw [Bool.and_eq_true] at hnoise
        obtain ⟨m, hm⟩ := exceptIsOk_exists _ hnoise.1
        obtain ⟨sd, hsd⟩ := exceptIsOk_exists _ hnoise.2
        rw [if_pos rfl, hm, hsd]
        exact ⟨_, rfl⟩
      · rw [if_neg (show ¬ (JVal.str s = JVal.str "noise") from by simp [hs])]
        apply exceptIsOk_exists
        split_ifs <;> rfl

theorem foldlM_append_ok {γ : Type} (step : JVal → Except String (Option γ)) (l : List JVal)
    (h : ∀ a ∈ l, ∃ r, step a = .ok r) (acc : List γ) :
    ∃ res, (l.foldlM (accumStep step) acc) = .ok res := by
  induction l generalizing acc with
  | nil => exact ⟨acc, rfl⟩
  | cons x xs ih =>
    obtain ⟨r, hr⟩ := h x (by simp)
    simp only [List.foldlM_cons, accumStep, hr]
    cases r with
    | some e =>
      obtain ⟨res, hres⟩ := ih (fun a ha => h a (by simp [ha])) (acc ++ [e])
      exact ⟨res, by simpa [accumStep] using hres⟩
    | none =>
      obtain ⟨res, hres⟩ := ih (fun a ha => h a (by simp [ha])) acc
      exact ⟨res, by simpa [accumStep] using hres⟩

/-- C7 counterexample: the config builder does raise on malformed
payloads: a non-mapping order entry (or a non-mapping payload) hits an
AttributeError inside _build_transform_config instead of being
silently skipped. -/
theorem C7_cex_nonmapping_order :
    buildTransformConfig (JVal.objOf [("order", .num 5)]) = .error "AttributeError: get"
    ∧ buildTransformConfig (JVal.num 5) = .error "AttributeError: get" := by
  exact ⟨by decide, by decide⟩

/-- C7 amended: the config builder returns normally, in payload order,
silently skipping absent, non-mapping or unenabled per-transform
entries, provided the payload is well formed in the sense of
wellFormedPayload: the payload is a mapping, its order entry (if
present) is a mapping whose spatial and intensity orders (if present)
iterate into hashable keys, its intensity entry (if present) is a
mapping, and the three float-coerced fields coerce; outside that
domain it can raise (TypeError or AttributeError), as the
counterexample shows. -/
theorem C7_builder_no_raise (tp : JVal) (h : wellFormedPayload tp = true) :
    ∃ c, buildTransformConfig tp = .ok c := by
  unfold wellFormedPayload at h
  simp only [Bool.and_eq_true] at h
  obtain ⟨⟨⟨⟨⟨⟨htp, hordD⟩, hosK⟩, hoiK⟩, hintD⟩, hflip⟩, hnoise⟩ := h
  obtain ⟨fs, rfl⟩ := isDict_obj tp htp
  obtain ⟨ofs, hoe⟩ := isDict_obj _ hordD
  obtain ⟨ifs, hie⟩ := isDict_obj _ hintD
  rw [hoe] at hosK hoiK
  rw [hie] at hnoise
  obtain ⟨sks, hsks, hsksH⟩ := iterKeysOk_exists _ hosK
  obtain ⟨iks, hiks, hiksH⟩ := iterKeysOk_exists _ hoiK
  unfold buildTransformConfig
  simp only [pyGetD_obj, exc_ok_bind, hoe]
  rw [hsks]
  simp only [exc_ok_bind]
  obtain ⟨ts1, hts1⟩ := foldlM_append_ok (spatialConfigStep (JVal.obj fs)) sks
    (fun a ha => spatialConfigStep_ok fs a (hsksH a ha) hflip) []
  rw [hts1]
  simp only [exc_ok_bind]
  rw [hie, hiks]
  simp only [exc_ok_bind]
  obtain ⟨ts2, hts2⟩ := foldlM_append_ok (intensityConfigStep (JVal.obj ifs)) iks
    (fun a ha => intensityConfigStep_ok ifs a (hiksH a ha) hnoise) ts1
  rw [hts2]
  exact ⟨_, rfl⟩

/-- Witness for C7 amended on a well formed payload with a flip and a
noise transform enabled. -/
theorem C7_builder_no_raise_witness :
    ∃ c, buildTransformConfig (JVal.objOf
      [("flip", JVal.objOf [("enabled", .bool true), ("p", .num (mkRat 7 10))]),
       ("intensity", JVal.objOf [("noise", JVal.objOf [("enabled", .bool true)])])])
      = .ok c :=
  C7_builder_no_raise _ (by decide)

theorem exc_pure_bind {ε α β : Type} (a : α) (f : α → Except ε β) :
    ((pure a : Except ε α) >>= f) = f a := rfl

/-- The three parameters the config builder float-coerces while the
pipeline builder forwards them raw. -/
def coercedField (name key : String) : Bool :=
  (name == "RandomFlip" && key == "p")
    || (name == "RandomNoise" && (key == "mean" || key == "std"))

/-- One exported parameter against one constructor argument: the keys
agree, and the values agree, except that a coerced field stores the
float of the raw constructor argument. -/
def pairRel (name : String) (cfgP rawP : String × JVal) : Prop :=
  cfgP.1 = rawP.1 ∧
    (if coercedField name cfgP.1 then (pyFloat rawP.2).map JVal.num = .ok cfgP.2
     else cfgP.2 = rawP.2)

/-- One config entry against one instantiated transform: same
transform name, and pointwise related parameter lists in the same
order. -/
def entryRel (e : ConfigEntry) (t : TransformInstance) : Prop :=
  e.name = t.name ∧ List.Forall₂ (pairRel e.name) e.params t.args

/-- Lift to the step results (used for the per-key loop bodies). -/
def optEntryRel : Option ConfigEntry → Option TransformInstance → Prop
  | none, none => True
  | some e, some t => entryRel e t
  | some _, none => False
  | none, some _ => False

theorem spatialStep_rel (tp k : JVal) (r : Option ConfigEntry)
    (h : spatialConfigStep tp k = .ok r) :
    ∃ r', spatialListStep tp k = .ok r' ∧ optEntryRel r r' := by
  unfold spatialConfigStep at h
  unfold spatialListStep
  cases hg : pyGetKey tp k with
  | error e =>
    rw [hg] at h
    dsimp only at h
    exact Except.noConfusion h
  | ok payload =>
    rw [hg] at h
    dsimp only at h ⊢
    by_cases hguard : (!(isDict payload) || !(pyTruthy (dictGetD payload "enabled" .null))) = true
    · rw [if_pos hguard] at h ⊢
      injection h with h'
      subst h'
      exact ⟨none, rfl, trivial⟩
    · rw [if_neg hguard] at h ⊢
      by_cases h1 : k = JVal.str "flip"
      · rw [if_pos h1] at h ⊢
        cases hf : pyFloat (dictGetD payload "p" (.num (mkRat 1 2))) with
        | error e =>
          rw [hf] at h
          exact Except.noConfusion h
        | ok p =>
          rw [hf] at h
          injection h with h'
          subst h'
          refine ⟨_, rfl, ⟨rfl, ?_⟩⟩
          refine List.Forall₂.cons ⟨rfl, by simp [coercedField]⟩ ?_
          exact List.Forall₂.cons ⟨rfl, by simp [coercedField, pairRel, hf, Except.map]⟩ List.Forall₂.nil
      · rw [if_neg h1] at h ⊢
        by_cases h2 : k = JVal.str "affine"
        · rw [if_pos h2] at h ⊢
          injection h with h'
          subst h'
          exact ⟨_, rfl, ⟨rfl, by
            refine List.Forall₂.cons ⟨rfl, by simp [coercedField]⟩ ?_
            refine List.Forall₂.cons ⟨rfl, by simp [coercedField]⟩ ?_
            exact List.Forall₂.cons ⟨rfl, by simp [coercedField]⟩ List.Forall₂.nil⟩⟩
        · rw [if_neg h2] at h ⊢
          by_cases h3 : k = JVal.str "elastic"
          · rw [if_pos h3] at h ⊢
            injection h with h'
            subst h'
            exact ⟨_, rfl, ⟨rfl, by
              refine List.Forall₂.cons ⟨rfl, by simp [coercedField]⟩ ?_
              exact List.Forall₂.cons ⟨rfl, by simp [coercedField]⟩ List.Forall₂.nil⟩⟩
          · rw [if_neg h3] at h ⊢
            by_cases h4 : k = JVal.str "anisotropy"
            · rw [if_pos h4] at h ⊢
              injection h with h'
              subst h'
              exact ⟨_, rfl, ⟨rfl, by
                refine List.Forall₂.cons ⟨rfl, by simp [coercedField]⟩ ?_
                exact List.Forall₂.cons ⟨rfl, by simp [coercedField]⟩ List.Forall₂.nil⟩⟩
            · rw [if_neg h4] at h ⊢
              by_cases h5 : k = JVal.str "motion"
              · rw [if_pos h5] at h ⊢
                injection h with h'
                subst h'
                exact ⟨_, rfl, ⟨rfl, by
                  refine List.Forall₂.cons ⟨rfl, by simp [coercedField]⟩ ?_
                  refine List.Forall₂.cons ⟨rfl, by simp [coercedField]⟩ ?_
                  exact List.Forall₂.cons ⟨rfl, by simp [coercedField]⟩ List.Forall₂.nil⟩⟩
              · rw [if_neg h5] at h ⊢
                by_cases h6 : k = JVal.str "ghosting"
                · rw [if_pos h6] at h ⊢
                  injection h with h'
                  subst h'
                  exact ⟨_, rfl, ⟨rfl, by
                    refine List.Forall₂.cons ⟨rfl, by simp [coercedField]⟩ ?_
                    exact List.Forall₂.cons ⟨rfl, by simp [coercedField]⟩ List.Forall₂.nil⟩⟩
                · rw [if_neg h6] at h ⊢
                  by_cases h7 : k = JVal.str "spike"
                  · rw [if_pos h7] at h ⊢
                    injection h with h'
                    subst h'
                    exact ⟨_, rfl, ⟨rfl, by
                      refine List.Forall₂.cons ⟨rfl, by simp [coercedField]⟩ ?_
                      exact List.Forall₂.cons ⟨rfl, by simp [coercedField]⟩ List.Forall₂.nil⟩⟩
                  · rw [if_neg h7] at h ⊢
                    by_cases h8 : k = JVal.str "swap"
                    · rw [if_pos h8] at h ⊢
                      injection h with h'
                      subst h'
                      exact ⟨_, rfl, ⟨rfl, by
                        refine List.Forall₂.cons ⟨rfl, by simp [coercedField]⟩ ?_
                        exact List.Forall₂.cons ⟨rfl, by simp [coercedField]⟩ List.Forall₂.nil⟩⟩
                    · rw [if_neg h8] at h ⊢
                      injection h with h'
                      subst h'
                      exact ⟨none, rfl, trivial⟩

theorem intensityStep_rel (intensity k : JVal) (r : Option ConfigEntry)
    (h : intensityConfigStep intensity k = .ok r) :
    ∃ r', intensityListStep intensity k = .ok r' ∧ optEntryRel r r' := by
  unfold intensityConfigStep at h
  unfold intensityListStep
  cases hg : pyGetKey intensity k with
  | error e =>
    rw [hg] at h
    dsimp only at h
    exact Except.noConfusion h
  | ok payload =>
    rw [hg] at h
    dsimp only at h ⊢
    by_cases hguard : (!(isDict payload) || !(pyTruthy (dictGetD payload "enabled" .null))) = true
    · rw [if_pos hguard] at h ⊢
      injection h with h'
      subst h'
      exact ⟨none, rfl, trivial⟩
    · rw [if_neg hguard] at h ⊢
      by_cases h1 : k = JVal.str "noise"
      · rw [if_pos h1] at h ⊢
        cases hm : pyFloat (dictGetD payload "mean" (.num 0)) with
        | error e =>
          rw [hm] at h
          exact Except.noConfusion h
        | ok mean =>
          rw [hm] at h
          cases hsd : pyFloat (dictGetD payload "std" (.num (mkRat 1 10))) with
          | error e =>
            rw [hsd] at h
            exact Except.noConfusion h
          | ok std =>
            rw [hsd] at h
            injection h with h'
            subst h'
            refine ⟨_, rfl, ⟨rfl, ?_⟩⟩
            refine List.Forall₂.cons ⟨rfl, by simp [coercedField, pairRel, hm, Except.map]⟩ ?_
            exact List.Forall₂.cons ⟨rfl, by simp [coercedField, pairRel, hsd, Except.map]⟩
              List.Forall₂.nil
      · rw [if_neg h1] at h ⊢
        by_cases h2 : k = JVal.str "gamma"
        · rw [if_pos h2] at h ⊢
          injection h with h'
          subst h'
          exact ⟨_, rfl, ⟨rfl,
            List.Forall₂.cons ⟨rfl, by simp [coercedField]⟩ List.Forall₂.nil⟩⟩
        · rw [if_neg h2] at h ⊢
          by_cases h3 : k = JVal.str "bias"
          · rw [if_pos h3] at h ⊢
            injection h with h'
            subst h'
            exact ⟨_, rfl, ⟨rfl, by
              refine List.Forall₂.cons ⟨rfl, by simp [coercedField]⟩ ?_
              exact List.Forall₂.cons ⟨rfl, by simp [coercedField]⟩ List.Forall₂.nil⟩⟩
          · rw [if_neg h3] at h ⊢
            by_cases h4 : k = JVal.str "blur"
            · rw [if_pos h4] at h ⊢
              injection h with h'
              subst h'
              exact ⟨_, rfl, ⟨rfl,
                List.Forall₂.cons ⟨rfl, by simp [coercedField]⟩ List.Forall₂.nil⟩⟩
            · rw [if_neg h4] at h ⊢
              injection h with h'
              subst h'
              exact ⟨none, rfl, trivial⟩

theorem foldlM_append_rel
    (stepC : JVal → Except String (Option ConfigEntry))
    (stepL : JVal → Except String (Option TransformInstance))
    (hstep : ∀ k r, stepC k = .ok r → ∃ r', stepL k = .ok r' ∧ optEntryRel r r')
    (l : List JVal) :
    ∀ (accC : List ConfigEntry) (accL : List TransformInstance),
      List.Forall₂ entryRel accC accL →
      ∀ res, l.foldlM (accumStep stepC) accC = .ok res →
      ∃ res', l.foldlM (accumStep stepL) accL = .ok res'
        ∧ List.Forall₂ entryRel res res' := by
  induction l with
  | nil =>
    intro accC accL hacc res h
    simp only [List.foldlM_nil] at h ⊢
    injection h with h'
    subst h'
    exact ⟨accL, rfl, hacc⟩
  | cons x xs ih =>
    intro accC accL hacc res h
    simp only [List.foldlM_cons, accumStep] at h ⊢
    cases hc : stepC x with
    | error e =>
      rw [hc] at h
      exact Except.noConfusion h
    | ok r =>
      rw [hc] at h
      obtain ⟨r', hr', hrel⟩ := hstep x r hc
      rw [hr']
      cases r with
      | some e_ =>
        cases r' with
        | some t_ =>
          rw [exc_ok_bind] at h
          rw [exc_ok_bind]
          dsimp only at h ⊢
          rw [exc_pure_bind] at h
          rw [exc_pure_bind]
          exact ih (accC ++ [e_]) (accL ++ [t_])
            (List.rel_append hacc (List.Forall₂.cons hrel List.Forall₂.nil)) res h
        | none => exact absurd hrel (by simp [optEntryRel])
      | none =>
        cases r' with
        | some t_ => exact absurd hrel (by simp [optEntryRel])
        | none =>
          rw [exc_ok_bind] at h
          rw [exc_ok_bind]
          dsimp only at h ⊢
          rw [exc_pure_bind] at h
          rw [exc_pure_bind]
          exact ih accC accL hacc res h

/-- C10 counterexample: flip's probability is stored float-coerced in
the exported config but forwarded raw to the constructor, so with the
JSON string "1" as p the exported parameter mapping (p = 1.0) differs
from the constructor's keyword arguments (p = "1"). -/
theorem C10_cex_float_coercion :
    buildTransformConfig (JVal.objOf
        [("flip", JVal.objOf [("enabled", .bool true), ("p", .str "1")])])
      = .ok ⟨"torchio", [⟨"RandomFlip",
          [("axes", JVal.arrOf [.str "lr"]), ("p", .num 1)]⟩]⟩
    ∧ buildTransformList (JVal.objOf
        [("flip", JVal.objOf [("enabled", .bool true), ("p", .str "1")])])
      = .ok [⟨"RandomFlip", [("axes", JVal.arrOf [.str "lr"]), ("p", .str "1")]⟩]
    ∧ ([("axes", JVal.arrOf [.str "lr"]), ("p", JVal.num 1)]
        ≠ [("axes", JVal.arrOf [.str "lr"]), ("p", JVal.str "1")]) := by
  exact ⟨by decide, by decide, by decide⟩

/-- C10 amended: the two builders traverse the payload identically;
whenever the config builder succeeds, the pipeline builder succeeds
with the same number of transforms in the same order, the i-th config
name equals the i-th constructor's class name, and the i-th parameter
mapping equals the i-th keyword arguments key-for-key — except that
flip's p and noise's mean and std are stored float-coerced in the
config while forwarded raw to the constructor (equal whenever those
values are already numeric). -/
theorem C10_config_matches_pipeline (tp : JVal) (cfg : TransformConfig)
    (h : buildTransformConfig tp = .ok cfg) :
    ∃ ts, buildTransformList tp = .ok ts ∧ List.Forall₂ entryRel cfg.transforms ts := by
  unfold buildTransformConfig at h
  unfold buildTransformList
  cases h1 : pyGetD tp "order" (JVal.objOf []) with
  | error e =>
    rw [h1] at h
    exact Except.noConfusion h
  | ok order =>
    rw [h1] at h
    simp only [exc_ok_bind] at h ⊢
    cases h2 : pyGetD order "spatial" defaultSpatialOrder with
    | error e =>
      rw [h2] at h
      exact Except.noConfusion h
    | ok os =>
      rw [h2] at h
      simp only [exc_ok_bind] at h ⊢
      cases h3 : pyGetD order "intensity" defaultIntensityOrder with
      | error e =>
        rw [h3] at h
        exact Except.noConfusion h
      | ok oi =>
        rw [h3] at h
        simp only [exc_ok_bind] at h ⊢
        cases h4 : pyIter os with
        | error e =>
          rw [h4] at h
          exact Except.noConfusion h
        | ok sks =>
          rw [h4] at h
          simp only [exc_ok_bind] at h ⊢
          cases h5 : sks.foldlM (accumStep (spatialConfigStep tp)) ([] : List ConfigEntry) with
          | error e =>
            rw [h5] at h
            exact Except.noConfusion h
          | ok ts1 =>
            rw [h5] at h
            simp only [exc_ok_bind] at h
            obtain ⟨ts1', hts1', hrel1⟩ := foldlM_append_rel (spatialConfigStep tp)
              (spatialListStep tp) (spatialStep_rel tp) sks [] [] List.Forall₂.nil ts1 h5
            rw [hts1']
            simp only [exc_ok_bind]
            cases h6 : pyGetD tp "intensity" (JVal.objOf []) with
            | error e =>
              rw [h6] at h
              exact Except.noConfusion h
            | ok intensity =>
              rw [h6] at h
              simp only [exc_ok_bind] at h ⊢
              cases h7 : pyIter oi with
              | error e =>
                rw [h7] at h
                exact Except.noConfusion h
              | ok iks =>
                rw [h7] at h
                simp only [exc_ok_bind] at h ⊢
                cases h8 : iks.foldlM (accumStep (intensityConfigStep intensity)) ts1 with
                | error e =>
                  rw [h8] at h
                  exact Except.noConfusion h
                | ok ts2 =>
                  rw [h8] at h
                  simp only [exc_ok_bind] at h
                  obtain ⟨ts2', hts2', hrel2⟩ := foldlM_append_rel
                    (intensityConfigStep intensity) (intensityListStep intensity)
                    (intensityStep_rel intensity) iks ts1 ts1' hrel1 ts2 h8
                  rw [hts2']
                  simp only [exc_ok_bind]
                  injection h with h'
                  subst h'
                  exact ⟨ts2', rfl, hrel2⟩

/-- Witness for C10 amended at a payload with flip (p supplied as the
string "1") and noise enabled. -/
theorem C10_config_matches_pipeline_witness :
    ∃ ts, buildTransformList (JVal.objOf
        [("flip", JVal.objOf [("enabled", .bool true), ("p", .str "1")]),
         ("intensity", JVal.objOf [("noise", JVal.objOf [("enabled", .bool true)])])])
      = .ok ts
    ∧ List.Forall₂ entryRel
        [⟨"RandomFlip", [("axes", JVal.arrOf [.str "lr"]), ("p", .num 1)]⟩,
         ⟨"RandomNoise", [("mean", .num 0), ("std", .num (mkRat 1 10))]⟩] ts := by
  have h := C10_config_matches_pipeline (JVal.objOf
      [("flip", JVal.objOf [("enabled", .bool true), ("p", .str "1")]),
       ("intensity", JVal.objOf [("noise", JVal.objOf [("enabled", .bool true)])])])
    ⟨"torchio",
      [⟨"RandomFlip", [("axes", JVal.arrOf [.str "lr"]), ("p", .num 1)]⟩,
       ⟨"RandomNoise", [("mean", .num 0), ("std", .num (mkRat 1 10))]⟩]⟩ (by decide)
  exact h
